import Mathlib

/-!
The value container of jsonpp (`jsonpp/value.hpp`)

A shallow embedding of `json::value` (src/jsonpp/value.hpp) and of its
type-checked access layer, followed by theorems about it.

Two views of a value are used.

* The *content* view (`json.value`): the discriminant together with the live
  union member, the owning pointers `storage.str`, `storage.arr`,
  `storage.obj` being replaced by what they own.  The read-only access layer
  (`is`, `as`, `operator[]`) and the constructors are embedded on this view.
* The *memory* view (`json.mem`): the object representation
  `{storage, storage_type}` with raw pointers into an explicit heap.  The
  lifecycle operations (`copy`, move construction, the two assignments,
  `clear`) are embedded on this view, and related to the content view by
  `json.mem.layout`, which says when an object holds a content and in which
  allocations.

`std::string` is embedded as `String`, `std::vector<T>` as `List T` and
`std::map<std::string, T>` as a list of entries kept in key order.  Numbers
are IEEE-754 binary64 data given by their three bit fields.  The headers
`type_traits.hpp` and `dump.hpp` are not part of the sources at hand; what is
used from them is introduced below where it is needed.
-/

namespace json

/-! ## Numbers -/

/-- The C++ type `double`: an IEEE-754 binary64 datum, given by its sign bit,
its 11-bit biased exponent and its 52-bit fraction. -/
structure double where
  sign : Bool
  exponent : Fin 2048
  fraction : Fin (2 ^ 52)
  deriving DecidableEq, Repr

/-- The C++ type `float`: an IEEE-754 binary32 datum. -/
structure float where
  sign : Bool
  exponent : Fin 256
  fraction : Fin (2 ^ 23)
  deriving DecidableEq, Repr

/-- Loop computing the position of the leading bit of `n`. -/
def log2_loop : Nat → Nat → Nat
  | 0, _ => 0
  | fuel + 1, n => if n < 2 then 0 else log2_loop fuel (n / 2) + 1

/-- Position of the leading bit of `n` (floor of the binary logarithm). -/
def ilog2 (n : Nat) : Nat := log2_loop n n

/-- Rounding to nearest, ties to even, of the positive dyadic number
`m * 2 ^ e` into the binary format with `eb` exponent bits and `fb` fraction
bits.  The result is the pair (biased exponent, fraction); values too large
for the format give infinity, values below the normal range are rounded on
the subnormal grid. -/
def round_dyadic (eb fb : Nat) (m : Nat) (e : Int) : Nat × Nat :=
  if m = 0 then (0, 0) else
  let bias : Int := 2 ^ (eb - 1) - 1
  let top : Int := (ilog2 m : Int) + e
  let q : Int := max top (1 - bias) - fb
  let n : Nat :=
    if q ≤ e then m * 2 ^ (e - q).toNat
    else
      let s := (q - e).toNat
      let n0 := m / 2 ^ s
      let r := m % 2 ^ s
      let half := 2 ^ (s - 1)
      if half < r ∨ (r = half ∧ n0 % 2 = 1) then n0 + 1 else n0
  let n1 : Nat := if n = 2 ^ (fb + 1) then 2 ^ fb else n
  let q1 : Int := if n = 2 ^ (fb + 1) then q + 1 else q
  if n1 < 2 ^ fb then (0, n1)
  else
    let biased := (q1 + fb + bias).toNat
    if 2 ^ eb - 1 ≤ biased then (2 ^ eb - 1, 0) else (biased, n1 - 2 ^ fb)

/-- A binary64 datum from its three fields. -/
def double.of_fields (s : Bool) (ex fr : Nat) : double :=
  ⟨s, ⟨ex % 2048, Nat.mod_lt _ (by decide)⟩, ⟨fr % 2 ^ 52, Nat.mod_lt _ (by decide)⟩⟩

/-- A binary32 datum from its three fields. -/
def float.of_fields (s : Bool) (ex fr : Nat) : float :=
  ⟨s, ⟨ex % 256, Nat.mod_lt _ (by decide)⟩, ⟨fr % 2 ^ 23, Nat.mod_lt _ (by decide)⟩⟩

/-- Integral to floating conversion `static_cast<double>(i)`: exact when `i`
is representable, rounded to nearest (ties to even) otherwise. -/
def double.of_int (i : Int) : double :=
  let r := round_dyadic 11 52 i.natAbs 0
  double.of_fields (decide (i < 0)) r.1 r.2

/-- Whether the datum is a NaN or an infinity. -/
def double.is_special (d : double) : Bool := d.exponent.val == 2047

/-- Significand of a finite binary64 datum, as an integer. -/
def double.significand (d : double) : Nat :=
  if d.exponent.val = 0 then d.fraction.val else 2 ^ 52 + d.fraction.val

/-- Exponent of the unit in the last place of a finite binary64 datum: the
datum has the magnitude `significand * 2 ^ scale`. -/
def double.scale (d : double) : Int :=
  if d.exponent.val = 0 then -1074 else (d.exponent.val : Int) - 1075

/-- Truncation toward zero of a binary64 datum; `none` for NaN and the
infinities. -/
def double.trunc (d : double) : Option Int :=
  if d.is_special then none
  else
    let m := d.significand
    let e := d.scale
    let a : Nat := if 0 ≤ e then m * 2 ^ e.toNat else m / 2 ^ (-e).toNat
    some (if d.sign then -(a : Int) else (a : Int))

/-- Narrowing conversion `static_cast<float>(d)`. -/
def double.to_float (d : double) : float :=
  if d.is_special then
    if d.fraction.val = 0 then float.of_fields d.sign 255 0
    else float.of_fields d.sign 255 (d.fraction.val / 2 ^ 29 % 2 ^ 22 + 2 ^ 22)
  else
    let r := round_dyadic 8 23 d.significand d.scale
    float.of_fields d.sign r.1 r.2

/-- Widening conversion `static_cast<double>(f)`, which is exact. -/
def float.to_double (f : float) : double :=
  if f.exponent.val = 255 then
    if f.fraction.val = 0 then double.of_fields f.sign 2047 0
    else double.of_fields f.sign 2047 (f.fraction.val % 2 ^ 22 * 2 ^ 29 + 2 ^ 51)
  else
    let m : Nat := if f.exponent.val = 0 then f.fraction.val else 2 ^ 23 + f.fraction.val
    let e : Int := if f.exponent.val = 0 then -149 else (f.exponent.val : Int) - 150
    let r := round_dyadic 11 52 m e
    double.of_fields f.sign r.1 r.2

/-- Modelled from the spec: the types for which the trait `json::is_number`
(type_traits.hpp, not among the sources) holds, "any numeric type": `double`,
`float`, and the signed and unsigned integer types of a given width. -/
inductive numeric where
  | f64
  | f32
  | sint (bits : Nat)
  | uint (bits : Nat)
  deriving DecidableEq, Repr

/-- The values of a numeric type. -/
def numeric.denote : numeric → Type
  | .f64 => double
  | .f32 => float
  | .sint _ => Int
  | .uint _ => Int

/-- Whether the integer `z` is a value of the integer type `n`. -/
def numeric.fits : numeric → Int → Bool
  | .sint w, z => decide (-(2 ^ (w - 1) : Int) ≤ z ∧ z < 2 ^ (w - 1))
  | .uint w, z => decide (0 ≤ z ∧ z < 2 ^ w)
  | _, _ => false

/-- The result the platform gives to a floating to integral conversion that
C++ leaves undefined: the truncated value does not fit the destination type,
or the source is a NaN or an infinity.  The source relies on whatever the
platform does there, so it is a parameter of the embedding. -/
structure platform where
  fp_to_int : numeric → double → Int

/-- Implicit conversion of a numeric argument to `double`, as performed when
calling `value(double v)`. -/
def numeric.to_double : (n : numeric) → n.denote → double
  | .f64, x => x
  | .f32, x => float.to_double x
  | .sint _, x => double.of_int x
  | .uint _, x => double.of_int x

/-- Implicit conversion of a `double` to the numeric type `n`, as performed by
`return storage.number;` in a function returning `n`. -/
def numeric.of_double (P : platform) : (n : numeric) → double → n.denote
  | .f64, d => d
  | .f32, d => d.to_float
  | .sint w, d =>
    match d.trunc with
    | some z => if numeric.fits (.sint w) z then z else P.fp_to_int (.sint w) d
    | none => P.fp_to_int (.sint w) d
  | .uint w, d =>
    match d.trunc with
    | some z => if numeric.fits (.uint w) z then z else P.fp_to_int (.uint w) d
    | none => P.fp_to_int (.uint w) d

/-! ## The content view of a value -/

/-- Modelled from the spec: the enumeration `json::type` of the six kinds
(declared in type_traits.hpp, not among the sources). -/
inductive type where
  | null
  | boolean
  | number
  | string
  | array
  | object
  deriving DecidableEq, Repr

/-- Modelled from the spec: the null marker type `json::null` (declared in
type_traits.hpp, not among the sources); it has a single value. -/
inductive null where
  | mk
  deriving DecidableEq, Repr

/-- Content of a `json::value` (value.hpp lines 65-78): the discriminant
`storage_type` together with the live member of `storage`, an owning pointer
being replaced by the string, vector or map it owns. -/
inductive value where
  | null
  | boolean (b : Bool)
  | number (d : double)
  | string (s : String)
  | array (a : List value)
  | object (o : List (String × value))

/-- The member `storage_type`. -/
def value.storage_type : value → type
  | .null => type.null
  | .boolean _ => type.boolean
  | .number _ => type.number
  | .string _ => type.string
  | .array _ => type.array
  | .object _ => type.object

/-- The member `storage.number`; every read in the source is guarded by a
check of the discriminant, the value given for the other kinds is never used. -/
def value.storage_number : value → double
  | .number d => d
  | _ => ⟨false, 0, 0⟩

/-- The member `storage.boolean`. -/
def value.storage_boolean : value → Bool
  | .boolean b => b
  | _ => false

/-- The string `*storage.str`. -/
def value.storage_str : value → String
  | .string s => s
  | _ => ""

/-- The vector `*storage.arr`. -/
def value.storage_arr : value → List value
  | .array a => a
  | _ => []

/-- The map `*storage.obj`. -/
def value.storage_obj : value → List (String × value)
  | .object o => o
  | _ => []

mutual
/-- The copy constructor `value(const value& other)`, that is `copy(other)`
on a fresh object (value.hpp lines 80-101, 245-247): a switch on the
discriminant of `other`; the heap-backed kinds get a new vector, string or
map copy-constructed from the one `other` owns. -/
def value.copy : value → value
  | .array a => .array (copy_array a)
  | .string s => .string s
  | .object o => .object (copy_object o)
  | .number d => .number d
  | .boolean b => .boolean b
  | .null => .null
/-- The copy constructor of `std::vector<value>`: every element is
copy-constructed, in order. -/
def copy_array : List value → List value
  | [] => []
  | x :: rest => x.copy :: copy_array rest
/-- The copy constructor of `std::map<std::string, value>`: every entry is
copy-constructed, in key order. -/
def copy_object : List (String × value) → List (String × value)
  | [] => []
  | (k, x) :: rest => (k, x.copy) :: copy_object rest
end

/-- The constructors `value()` and `value(null)` (lines 208-209). -/
def value.of_null : value := .null

/-- The constructor `value(double v)` (lines 215-217). -/
def value.of_double (v : double) : value := .number v

/-- The constructor `value(const T& b)` for `bool` (lines 219-222). -/
def value.of_bool (b : Bool) : value := .boolean b

/-- The constructor `value(const T& str)` for a stringy `T` (lines 225-228):
the characters are copied into a new string. -/
def value.of_string (str : String) : value := .string str

/-- The constructor `value(const array& arr)` (lines 233-235). -/
def value.of_array (arr : List value) : value := .array (copy_array arr)

/-- The constructor `value(const object& obj)` (lines 237-239). -/
def value.of_object (obj : List (String × value)) : value := .object (copy_object obj)

/-- The constructor `value(std::initializer_list<value> l)` (lines 241-243). -/
def value.of_list (l : List value) : value := .array (copy_array l)

/-! ## `std::map<std::string, T>` -/

/-- Lexicographic comparison of two character sequences. -/
def chars_less : List Char → List Char → Bool
  | _, [] => false
  | [], _ :: _ => true
  | a :: as, b :: bs =>
    if a.toNat < b.toNat then true
    else if b.toNat < a.toNat then false
    else chars_less as bs

/-- The comparison `std::less<std::string>` ordering the keys of a map. -/
def less (a b : String) : Bool := chars_less a.toList b.toList

/-- The lookup `std::map::find`: the entry whose key is equivalent to `k`,
`none` standing for `end()`. -/
def map_find {α : Type} : List (String × α) → String → Option α
  | [], _ => none
  | (k1, x) :: rest, k =>
    if !less k1 k && !less k k1 then some x else map_find rest k

/-- The statement `m[k] = x` on a `std::map`: the entry of key `k` is
overwritten when there is one, and inserted at its place in key order
otherwise. -/
def map_assign {α : Type} : List (String × α) → String → α → List (String × α)
  | [], k, x => [(k, x)]
  | (k1, y) :: rest, k, x =>
    if less k k1 then (k, x) :: (k1, y) :: rest
    else if less k1 k then (k1, y) :: map_assign rest k x
    else (k1, x) :: rest

/-- The invariant of a `std::map`: the keys are strictly increasing. -/
def map_sorted {α : Type} : List (String × α) → Prop
  | [] => True
  | (k, _) :: rest => (∀ e ∈ rest, less k e.1 = true) ∧ map_sorted rest

/-! ## The type-checked access layer -/

/-- The types `T` for which `is<T>()` and `as<T>()` compile: those accepted
by `is_valid_json_type` (lines 40-63) that have an `is_impl` and an `as_impl`
overload (lines 103-205). -/
inductive jtype where
  | bool
  | value
  | null
  | std_string
  | c_str
  | number (n : numeric)
  | std_vector (t : jtype)
  | std_map (t : jtype)
  deriving DecidableEq, Repr

/-- The values of the C++ type described by a `jtype`.  A `const char*` is
represented by the characters it points to. -/
def denote : jtype → Type
  | .bool => Bool
  | .value => json.value
  | .null => json.null
  | .std_string => String
  | .c_str => String
  | .number n => n.denote
  | .std_vector t => List (denote t)
  | .std_map t => List (String × denote t)

/-- The exception `std::runtime_error`, with its message. -/
structure runtime_error where
  what : String
  deriving DecidableEq, Repr

/-- The loop of `is_impl` for `std::vector<T>` (lines 144-148). -/
def is_each (p : value → Bool) : List value → Bool
  | [] => true
  | obj :: rest => if !p obj then false else is_each p rest

/-- The loop of `is_impl` for `std::map<std::string, T>` (lines 133-137). -/
def is_each_second (p : value → Bool) : List (String × value) → Bool
  | [] => true
  | pair :: rest => if !p pair.2 then false else is_each_second p rest

/-- The overloads of `is_impl` (lines 103-149). -/
def is_impl : jtype → value → Bool
  | .std_string, v => v.storage_type == type.string
  | .c_str, v => v.storage_type == type.string
  | .null, v => v.storage_type == type.null
  | .number _, v => v.storage_type == type.number
  | .bool, v => v.storage_type == type.boolean
  | .value, _ => true
  | .std_map t, v =>
    if v.storage_type != type.object then false
    else is_each_second (is_impl t) v.storage_obj
  | .std_vector t, v =>
    if v.storage_type != type.array then false
    else is_each (is_impl t) v.storage_arr

/-- The member `is<T>()` (lines 355-359); the static assertion holds for
every `jtype`. -/
def is (t : jtype) (v : value) : Bool := is_impl t v

/-- The loop of `as_impl` for `std::vector<T>` (lines 202-203):
`results.push_back(obj.as<T>())` for every element of `contents`. -/
def as_each {α : Type} (f : value → Except runtime_error α) :
    List value → List α → Except runtime_error (List α)
  | [], results => .ok results
  | obj :: rest, results =>
    match f obj with
    | .error e => .error e
    | .ok x => as_each f rest (results ++ [x])

/-- The loop of `as_impl` for `std::map<std::string, T>` (lines 191-192):
`result[pair.first] = pair.second.as<T>()` for every entry of `contents`. -/
def as_each_second {α : Type} (f : value → Except runtime_error α) :
    List (String × value) → List (String × α) → Except runtime_error (List (String × α))
  | [], result => .ok result
  | pair :: rest, result =>
    match f pair.2 with
    | .error e => .error e
    | .ok x => as_each_second f rest (map_assign result pair.1 x)

/-- The overloads of `as_impl` (lines 151-205). -/
def as_impl (P : platform) : (t : jtype) → value → Except runtime_error (denote t)
  | .c_str, v =>
    if !is .c_str v then .error ⟨"Invalid JSON type."⟩
    else .ok v.storage_str
  | .std_string, v =>
    if !is .std_string v then .error ⟨"Invalid JSON type."⟩
    else .ok v.storage_str
  | .null, v =>
    if !is .null v then .error ⟨"Invalid JSON type."⟩
    else .ok json.null.mk
  | .bool, v =>
    if !is .bool v then .error ⟨"Invalid JSON type."⟩
    else .ok v.storage_boolean
  | .number n, v =>
    if !is (.number .f64) v then .error ⟨"Invalid JSON type."⟩
    else .ok (numeric.of_double P n v.storage_number)
  | .value, v => .ok v.copy
  | .std_map t, v =>
    if !is (.std_map t) v then .error ⟨"Invalid JSON type."⟩
    else
      let contents := copy_object v.storage_obj
      as_each_second (as_impl P t) contents []
  | .std_vector t, v =>
    if !is (.std_vector t) v then .error ⟨"Invalid JSON type."⟩
    else
      let contents := copy_array v.storage_arr
      as_each (as_impl P t) contents []

/-- The member `as<T>()` (lines 360-364). -/
def as (P : platform) (t : jtype) (v : value) : Except runtime_error (denote t) :=
  as_impl P t v

/-- The member `as<T>(T&& def)` (lines 366-369). -/
def as_default (P : platform) (t : jtype) (v : value) (dflt : denote t) :
    Except runtime_error (denote t) :=
  if is t v then as P t v else .ok dflt

/-! ## Convenience indexing -/

/-- The type `json::array` (line 68). -/
def jtype.array : jtype := .std_vector .value

/-- The type `json::object` (line 67). -/
def jtype.object : jtype := .std_map .value

/-- The member `operator[](const T& str)` for a stringy `T` (lines 371-382). -/
def operator_key (v : value) (str : String) : value :=
  if !is jtype.object v then value.of_null
  else
    match map_find v.storage_obj str with
    | some second => second.copy
    | none => value.of_null

/-- Integral conversion to `size_t`, which is 64 bits wide: reduction modulo
`2 ^ 64`. -/
def size_t_of_int (i : Int) : Nat := (i % 2 ^ 64).toNat

/-- The conversion `static_cast<size_t>(index)` of a numeric index: an
integer is reduced modulo `2 ^ 64`, a floating value is truncated. -/
def numeric.to_size_t (P : platform) : (n : numeric) → n.denote → Nat
  | .sint _, i => size_t_of_int i
  | .uint _, i => size_t_of_int i
  | .f64, d => size_t_of_int (numeric.of_double P (.uint 64) d)
  | .f32, f => size_t_of_int (numeric.of_double P (.uint 64) (float.to_double f))

/-- The member `operator[](const T& index)` for a numeric `T` (lines
384-396).  The result is `none` when the element access `arr[index]` is out
of bounds. -/
def operator_index (P : platform) (n : numeric) (v : value) (index : n.denote) :
    Option value :=
  if !is jtype.array v then some value.of_null
  else
    let arr := v.storage_arr
    if numeric.to_size_t P n index < arr.length then
      match arr.get? (numeric.to_size_t P n index) with
      | some x => some x.copy
      | none => none
    else some value.of_null

/-! ## Native containers stored into a value -/

/-- The value built from a native `T`, every element being stored as a value
through the constructor for its type and a sequence or mapping being stored
whole through `value(const array&)` or `value(const object&)`. -/
def from_native : (t : jtype) → denote t → value
  | .bool, b => value.of_bool b
  | .value, x => x.copy
  | .null, _ => value.of_null
  | .std_string, s => value.of_string s
  | .c_str, s => value.of_string s
  | .number n, x => value.of_double (numeric.to_double n x)
  | .std_vector t, c => value.of_array (c.map (from_native t))
  | .std_map t, c => value.of_object (c.map (fun e => (e.1, from_native t e.2)))

/-- The non-negative integer `n` is exactly representable as a 64-bit float:
it is a 53-bit significand times a power of two, the largest such power for
a finite `double` being `2 ^ 971`. -/
def double.representable (n : Nat) : Prop :=
  ∃ m e : Nat, m < 2 ^ 53 ∧ e ≤ 971 ∧ n = m * 2 ^ e

/-- Whether the binary32 datum is a signalling NaN: all exponent bits set, a
fraction that is not zero and whose leading bit is clear.  A conversion
gives the quiet NaN with the same other bits. -/
def float.is_signalling (f : float) : Bool :=
  f.exponent.val == 255 && decide (0 < f.fraction.val) && decide (f.fraction.val < 2 ^ 22)

/-- A numeric value exactly representable as a 64-bit float: every `double`;
a `float` that is not a signalling NaN; an integer, of either sign, that
fits its type and whose magnitude is a 53-bit significand times a power of
two. -/
def numeric.exact : (n : numeric) → n.denote → Prop
  | .f64, _ => True
  | .f32, x => float.is_signalling x = false
  | .sint w, x => numeric.fits (.sint w) x = true ∧ double.representable (Int.natAbs x)
  | .uint w, x => numeric.fits (.uint w) x = true ∧ double.representable (Int.natAbs x)

/-- Every element of the list satisfies `p`. -/
def each {α : Type} (p : α → Prop) (l : List α) : Prop := ∀ x ∈ l, p x

/-- A native value whose numbers are all exactly representable as a 64-bit
float, in the sense of `numeric.exact`, and whose maps are in key order, with
no `const char*` in it (`as<const char*>()` gives a pointer into the value it
is called on). -/
def survives : (t : jtype) → denote t → Prop
  | .bool, _ => True
  | .value, _ => True
  | .null, _ => True
  | .std_string, _ => True
  | .c_str, _ => False
  | .number n, x => n.exact x
  | .std_vector t, c => each (survives t) c
  | .std_map t, c => map_sorted c ∧ each (fun e => survives t e.2) c

/-! ## The type-eligibility predicate -/

/-- The C++ types, as far as `is_valid_json_type` (lines 40-63) tells them
apart.  Modelled from the spec: the traits `json::is_string` and
`json::is_number` are declared in type_traits.hpp, not among the sources; a
type for which `is_string` holds is a `stringy`, a type for which `is_number`
holds is a `number`.  `other` stands for every type that none of the
specialisations matches. -/
inductive ctype where
  | bool
  | value
  | null
  | stringy (id : Nat)
  | number (n : numeric)
  | std_vector (t : ctype)
  | std_map (t : ctype)
  | other (id : Nat)
  deriving DecidableEq, Repr

/-- The member `result` of `is_valid_json_type<T>` (lines 40-63): `false` in
the primary template, `true` in the specialisations for `bool`,
`json::value`, `json::null`, the stringy and the numeric types, and the
result for `T` in the specialisations for `std::vector<T>` and
`std::map<std::string, T>`. -/
def is_valid_json_type : ctype → Bool
  | .bool => true
  | .value => true
  | .null => true
  | .stringy _ => true
  | .number _ => true
  | .std_vector t => is_valid_json_type t
  | .std_map t => is_valid_json_type t
  | .other _ => false

/-- The innermost element type of a type: the type itself unless it is a
vector or a map. -/
def ctype.element : ctype → ctype
  | .std_vector t => t.element
  | .std_map t => t.element
  | t => t

/-- The C++ type a `jtype` stands for; `std::string` and `const char*` are
the stringy types 0 and 1. -/
def jtype.to_ctype : jtype → ctype
  | .bool => .bool
  | .value => .value
  | .null => .null
  | .std_string => .stringy 0
  | .c_str => .stringy 1
  | .number n => .number n
  | .std_vector t => .std_vector t.to_ctype
  | .std_map t => .std_map t.to_ctype

/-! ## The memory view of a value -/

namespace mem

/-- The union `storage_t` (value.hpp lines 71-77) with the member last
written; a pointer is `none` (`nullptr`) or an address of the free store.
`indeterminate` is the union of an object no member of which was written. -/
inductive storage_t where
  | indeterminate
  | number (v : double)
  | boolean (b : Bool)
  | str (p : Option Nat)
  | arr (p : Option Nat)
  | obj (p : Option Nat)
  deriving DecidableEq, Repr

/-- The object representation of a `json::value` (lines 65-78): the members
`storage` and `storage_type`. -/
structure value where
  storage : storage_t
  storage_type : type
  deriving DecidableEq, Repr

/-- What an allocation of the free store holds: a `std::string`, a
`std::vector<value>` with its elements, or a `std::map<std::string, value>`
with its entries. -/
inductive block where
  | str (s : String)
  | arr (elems : List value)
  | obj (entries : List (String × value))
  deriving DecidableEq, Repr

/-- The free store: the allocation at address `p` is the `p`-th item, `none`
once it has been released.  Addresses are not reused. -/
abbrev heap := List (Option block)

/-- The live allocation at address `p`, if any. -/
def heap.read (h : heap) (p : Nat) : Option block := (h[p]?).join

/-- The expression `new T(...)`: a new allocation, at a fresh address. -/
def heap.alloc (h : heap) (b : block) : heap × Nat := (h ++ [some b], h.length)

/-- The deallocation done by `delete p`. -/
def heap.release (h : heap) (p : Nat) : heap := h.set p none

/-- The element-wise copy construction done by the copy constructor of a
vector or a map. -/
def copy_each (f : heap → value → Option (heap × value)) :
    heap → List value → Option (heap × List value)
  | h, [] => some (h, [])
  | h, x :: rest =>
    match f h x with
    | none => none
    | some (h1, y) =>
      match copy_each f h1 rest with
      | none => none
      | some (h2, ys) => some (h2, y :: ys)

/-- The member `copy(const value& other)` (lines 80-101), run on the object
`this`: the heap and `this` afterwards.  The result is `none` when the fuel
is used up or when the behaviour is undefined (an inactive member of the
union is read, a pointer to no live allocation is dereferenced).  An element
of a vector or map is copy-constructed by `value(const value&)`, which runs
`copy` on the new element. -/
def copy : Nat → heap → value → value → Option (heap × value)
  | 0, _, _, _ => none
  | fuel + 1, h, this, other =>
    match other.storage_type with
    | type.array =>
      match other.storage with
      | .arr (some p) =>
        match h.read p with
        | some (.arr elems) =>
          match copy_each (fun h1 x => copy fuel h1 ⟨.indeterminate, type.null⟩ x) h elems with
          | some (h1, ys) => some ((h1.alloc (.arr ys)).1, ⟨.arr (some (h1.alloc (.arr ys)).2), type.array⟩)
          | none => none
        | _ => none
      | _ => none
    | type.string =>
      match other.storage with
      | .str (some p) =>
        match h.read p with
        | some (.str s) => some ((h.alloc (.str s)).1, ⟨.str (some (h.alloc (.str s)).2), type.string⟩)
        | _ => none
      | _ => none
    | type.object =>
      match other.storage with
      | .obj (some p) =>
        match h.read p with
        | some (.obj entries) =>
          match copy_each (fun h1 x => copy fuel h1 ⟨.indeterminate, type.null⟩ x) h
              (entries.map Prod.snd) with
          | some (h1, ys) =>
            some ((h1.alloc (.obj ((entries.map Prod.fst).zip ys))).1,
              ⟨.obj (some (h1.alloc (.obj ((entries.map Prod.fst).zip ys))).2), type.object⟩)
          | none => none
        | _ => none
      | _ => none
    | type.number =>
      match other.storage with
      | .number d => some (h, ⟨.number d, type.number⟩)
      | _ => none
    | type.boolean =>
      match other.storage with
      | .boolean b => some (h, ⟨.boolean b, type.boolean⟩)
      | _ => none
    | type.null => some (h, ⟨this.storage, type.null⟩)

/-- The element-wise destruction done by the destructor of a vector or a
map. -/
def destroy_each (f : heap → value → Option heap) : heap → List value → Option heap
  | h, [] => some h
  | h, x :: rest =>
    match f h x with
    | none => none
    | some h1 => destroy_each f h1 rest

/-- The member `clear()` (lines 338-353), run on the object `this`: the heap
and `this` afterwards.  `delete` of a null pointer does nothing; `delete` of
a vector or map first destroys its elements, `~value()` running `clear()`
(lines 211-213).  The result is `none` when the fuel is used up or when the
behaviour is undefined (the pointer deleted is not to a live allocation). -/
def clear : Nat → heap → value → Option (heap × value)
  | 0, _, _ => none
  | fuel + 1, h, this =>
    match this.storage_type with
    | type.array =>
      match this.storage with
      | .arr none => some (h, ⟨this.storage, type.null⟩)
      | .arr (some p) =>
        match h.read p with
        | some (.arr elems) =>
          match destroy_each (fun h1 x => (clear fuel h1 x).map Prod.fst) h elems with
          | some h1 => some (h1.release p, ⟨this.storage, type.null⟩)
          | none => none
        | _ => none
      | _ => none
    | type.string =>
      match this.storage with
      | .str none => some (h, ⟨this.storage, type.null⟩)
      | .str (some p) =>
        match h.read p with
        | some (.str _) => some (h.release p, ⟨this.storage, type.null⟩)
        | _ => none
      | _ => none
    | type.object =>
      match this.storage with
      | .obj none => some (h, ⟨this.storage, type.null⟩)
      | .obj (some p) =>
        match h.read p with
        | some (.obj entries) =>
          match destroy_each (fun h1 x => (clear fuel h1 x).map Prod.fst) h
              (entries.map Prod.snd) with
          | some h1 => some (h1.release p, ⟨this.storage, type.null⟩)
          | none => none
        | _ => none
      | _ => none
    | _ => some (h, ⟨this.storage, type.null⟩)

/-- A state of the program: the free store, and the `value` objects the
program has, each identified by a number. -/
structure state where
  heap : heap
  objects : Nat → value

/-- The state in which object `i` is `v`. -/
def state.write (s : state) (i : Nat) (v : value) : state :=
  ⟨s.heap, fun j => if j = i then v else s.objects j⟩

/-- Assignment to the member `storage` of object `i`. -/
def state.set_storage (s : state) (i : Nat) (x : storage_t) : state :=
  s.write i ⟨x, (s.objects i).storage_type⟩

/-- Assignment to the member `storage_type` of object `i`. -/
def state.set_storage_type (s : state) (i : Nat) (x : type) : state :=
  s.write i ⟨(s.objects i).storage, x⟩

/-- The copy constructor `value(const value& other)` (lines 245-247),
constructing the object `this`. -/
def copy_construct (fuel : Nat) (s : state) (this other : Nat) : Option state :=
  match copy fuel s.heap (s.objects this) (s.objects other) with
  | some (h, v) => some (state.write ⟨h, s.objects⟩ this v)
  | none => none

/-- The member `clear()` run on the object `this` of a state. -/
def clear_object (fuel : Nat) (s : state) (this : Nat) : Option state :=
  match clear fuel s.heap (s.objects this) with
  | some (h, v) => some (state.write ⟨h, s.objects⟩ this v)
  | none => none

/-- The copy assignment `operator=(const value& other)` (lines 283-287):
`clear()`, then `copy(other)`. -/
def copy_assign (fuel : Nat) (s : state) (this other : Nat) : Option state :=
  match clear_object fuel s this with
  | some s1 => copy_construct fuel s1 this other
  | none => none

/-- The body shared by the move constructor (lines 250-274) and the move
assignment (lines 291-315): the switch on `other.storage_type` moving the
live member, then the two assignments to the discriminants.  The result is
`none` when an inactive member of the union is read. -/
def move_members (s : state) (this other : Nat) : Option state :=
  let moved : Option state :=
    match (s.objects other).storage_type with
    | type.array =>
      match (s.objects other).storage with
      | .arr p => some ((s.set_storage this (.arr p)).set_storage other (.arr none))
      | _ => none
    | type.string =>
      match (s.objects other).storage with
      | .str p => some ((s.set_storage this (.str p)).set_storage other (.str none))
      | _ => none
    | type.object =>
      match (s.objects other).storage with
      | .obj p => some ((s.set_storage this (.obj p)).set_storage other (.obj none))
      | _ => none
    | type.boolean =>
      match (s.objects other).storage with
      | .boolean b => some (s.set_storage this (.boolean b))
      | _ => none
    | type.number =>
      match (s.objects other).storage with
      | .number d => some (s.set_storage this (.number d))
      | _ => none
    | type.null => some s
  match moved with
  | some s1 =>
    some ((s1.set_storage_type this (s1.objects other).storage_type).set_storage_type
      other type.null)
  | none => none

/-- The move constructor `value(value&& other)` (lines 249-275), constructing
the object `this`. -/
def move_construct (s : state) (this other : Nat) : Option state :=
  move_members s this other

/-- The move assignment `operator=(value&& other)` (lines 289-317):
`clear()`, then the transfer of the members. -/
def move_assign (fuel : Nat) (s : state) (this other : Nat) : Option state :=
  match clear_object fuel s this with
  | some s1 => move_members s1 this other
  | none => none

mutual
/-- The addresses of the allocations making up the content `t` held by the
object `v` in the heap `h`: `some` of their list when `v` holds `t`, that is
when the discriminant of `v` is the kind of `t`, the live member of its union
is the scalar of `t` or points to a live allocation holding the string of
`t`, or the elements or entries of `t` held in the same way; `none` when `v`
does not hold `t`.  A Null content asks nothing of the union. -/
def layout (h : heap) : value → json.value → Option (List Nat)
  | v, .null => if v.storage_type = type.null then some [] else none
  | v, .boolean b =>
    if v.storage_type = type.boolean ∧ v.storage = .boolean b then some [] else none
  | v, .number d =>
    if v.storage_type = type.number ∧ v.storage = .number d then some [] else none
  | v, .string s =>
    if v.storage_type = type.string then
      match v.storage with
      | .str (some p) => if h.read p = some (.str s) then some [p] else none
      | _ => none
    else none
  | v, .array a =>
    if v.storage_type = type.array then
      match v.storage with
      | .arr (some p) =>
        match h.read p with
        | some (.arr elems) => (layout_each h elems a).map (fun f => p :: f)
        | _ => none
      | _ => none
    else none
  | v, .object o =>
    if v.storage_type = type.object then
      match v.storage with
      | .obj (some p) =>
        match h.read p with
        | some (.obj entries) => (layout_entries h entries o).map (fun f => p :: f)
        | _ => none
      | _ => none
    else none
/-- The addresses making up the elements of a vector, element by element. -/
def layout_each (h : heap) : List value → List json.value → Option (List Nat)
  | [], [] => some []
  | x :: xs, t :: ts =>
    match layout h x t, layout_each h xs ts with
    | some f1, some f2 => some (f1 ++ f2)
    | _, _ => none
  | _, _ => none
/-- The addresses making up the entries of a map, entry by entry; the keys
are those of the content. -/
def layout_entries (h : heap) : List (String × value) → List (String × json.value) →
    Option (List Nat)
  | [], [] => some []
  | (k1, x) :: xs, (k2, t) :: ts =>
    if k1 = k2 then
      match layout h x t, layout_entries h xs ts with
      | some f1, some f2 => some (f1 ++ f2)
      | _, _ => none
    else none
  | _, _ => none
end

/-- The object `v` holds the content `t` in the heap `h`. -/
def holds (h : heap) (v : value) (t : json.value) : Prop := (layout h v t).isSome = true

/-- What `copy` yields on an object holding `t`, given enough fuel: the heap
is extended, and the new object holds and owns `t` in allocations that are
all new. -/
def copy_post (t : json.value) : Prop :=
  ∀ (h : heap) (v : value) (f : List Nat) (this : value), layout h v t = some f →
    ∃ n ext v1 f1, (∀ fuel, n ≤ fuel → copy fuel h this v = some (h ++ ext, v1)) ∧
      layout (h ++ ext) v1 t = some f1 ∧ f1.Nodup ∧ (∀ a ∈ f1, h.length ≤ a) ∧
        v1.storage_type = v.storage_type

/-- What the element-wise copy yields on elements holding `ts`. -/
def copy_each_post (ts : List json.value) : Prop :=
  ∀ (h : heap) (vs : List value) (f : List Nat), layout_each h vs ts = some f →
    ∃ n ext vs1 f1,
      (∀ fuel, n ≤ fuel →
        copy_each (fun h1 x => copy fuel h1 ⟨.indeterminate, type.null⟩ x) h vs =
          some (h ++ ext, vs1)) ∧
        layout_each (h ++ ext) vs1 ts = some f1 ∧ f1.Nodup ∧ (∀ a ∈ f1, h.length ≤ a)

/-- What `clear` yields on an object holding and owning `t`, given enough
fuel: the discriminant is reset, the allocations of `t` are released and no
other allocation is touched. -/
def clear_post (t : json.value) : Prop :=
  ∀ (h : heap) (v : value) (f : List Nat), layout h v t = some f → f.Nodup →
    ∃ n h1, (∀ fuel, n ≤ fuel → clear fuel h v = some (h1, ⟨v.storage, type.null⟩)) ∧
      h1.length = h.length ∧ (∀ a, a ∉ f → h1.read a = h.read a) ∧
        (∀ a ∈ f, h1.read a = none)

/-- What the element-wise destruction yields on elements holding `ts`. -/
def destroy_each_post (ts : List json.value) : Prop :=
  ∀ (h : heap) (vs : List value) (f : List Nat), layout_each h vs ts = some f → f.Nodup →
    ∃ n h1,
      (∀ fuel, n ≤ fuel →
        destroy_each (fun h2 x => (clear fuel h2 x).map Prod.fst) h vs = some h1) ∧
      h1.length = h.length ∧ (∀ a, a ∉ f → h1.read a = h.read a) ∧
        (∀ a ∈ f, h1.read a = none)

/-- A state with three objects that are not Null: object 0 holds the array
`[true, "x"]`, object 1 the string `"y"` and object 2 the object
`{"k": "z"}`; every other object is Null. -/
def sample : state :=
  ⟨[some (.str "x"),
    some (.arr [⟨.boolean true, type.boolean⟩, ⟨.str (some 0), type.string⟩]),
    some (.str "y"),
    some (.str "z"),
    some (.obj [("k", ⟨.str (some 3), type.string⟩)])],
   fun i =>
    if i = 0 then ⟨.arr (some 1), type.array⟩
    else if i = 1 then ⟨.str (some 2), type.string⟩
    else if i = 2 then ⟨.obj (some 4), type.object⟩
    else ⟨.indeterminate, type.null⟩⟩

end mem

/-! ## Theorems -/

/-! ### The order on keys -/

theorem char_eq_of_toNat (a b : Char) (h1 : ¬ a.toNat < b.toNat) (h2 : ¬ b.toNat < a.toNat) :
    a = b := by
  have h : a.toNat = b.toNat := by omega
  exact Char.ext (UInt32.ext h)

theorem chars_less_equiv : ∀ a b : List Char,
    chars_less a b = false → chars_less b a = false → a = b
  | [], [], _, _ => rfl
  | [], _ :: _, h, _ => by simp [chars_less] at h
  | _ :: _, [], _, h => by simp [chars_less] at h
  | a :: as, b :: bs, h1, h2 => by
    simp only [chars_less] at h1 h2
    by_cases hab : a.toNat < b.toNat
    · simp [hab] at h1
    · by_cases hba : b.toNat < a.toNat
      · simp [hba] at h2
      · simp only [hab, hba, if_false] at h1 h2
        rw [char_eq_of_toNat a b hab hba, chars_less_equiv as bs h1 h2]

theorem chars_less_irrefl : ∀ a : List Char, chars_less a a = false
  | [] => rfl
  | a :: as => by simp [chars_less, chars_less_irrefl as]

theorem chars_less_asymm : ∀ a b : List Char, chars_less a b = true → chars_less b a = false
  | _, [], h => by simp [chars_less] at h
  | [], _ :: _, _ => rfl
  | a :: as, b :: bs, h => by
    simp only [chars_less] at h ⊢
    by_cases hab : a.toNat < b.toNat
    · have : ¬ b.toNat < a.toNat := by omega
      simp [hab, this]
    · by_cases hba : b.toNat < a.toNat
      · simp [hba] at h; simp [hab] at h
      · simp only [hab, hba, if_false] at h ⊢
        exact chars_less_asymm as bs h

theorem chars_less_trans : ∀ a b c : List Char,
    chars_less a b = true → chars_less b c = true → chars_less a c = true
  | _, [], _, h, _ => by simp [chars_less] at h
  | _, _ :: _, [], _, h => by simp [chars_less] at h
  | [], _ :: _, _ :: _, _, _ => rfl
  | a :: as, b :: bs, c :: cs, h1, h2 => by
    simp only [chars_less] at h1 h2 ⊢
    by_cases hab : a.toNat < b.toNat
    · by_cases hbc : b.toNat < c.toNat
      · have : a.toNat < c.toNat := by omega
        simp [this]
      · by_cases hcb : c.toNat < b.toNat
        · simp [hbc, hcb] at h2
        · have : a.toNat < c.toNat := by omega
          simp [this]
    · by_cases hba : b.toNat < a.toNat
      · simp [hab, hba] at h1
      · simp only [hab, hba, if_false] at h1
        by_cases hbc : b.toNat < c.toNat
        · have : a.toNat < c.toNat := by omega
          simp [this]
        · by_cases hcb : c.toNat < b.toNat
          · simp [hbc, hcb] at h2
          · simp only [hbc, hcb, if_false] at h2
            have h3 : ¬ a.toNat < c.toNat := by omega
            have h4 : ¬ c.toNat < a.toNat := by omega
            simp only [h3, h4, if_false]
            exact chars_less_trans as bs cs h1 h2

theorem less_equiv (a b : String) (h1 : less a b = false) (h2 : less b a = false) : a = b :=
  String.ext (chars_less_equiv _ _ h1 h2)

theorem less_irrefl (a : String) : less a a = false := chars_less_irrefl _

theorem less_asymm (a b : String) (h : less a b = true) : less b a = false :=
  chars_less_asymm _ _ h

theorem less_trans (a b c : String) (h1 : less a b = true) (h2 : less b c = true) :
    less a c = true := chars_less_trans _ _ _ h1 h2

/-! ### The access layer -/

mutual
theorem value.copy_eq : ∀ v : value, v.copy = v
  | .array a => by rw [value.copy, copy_array_eq a]
  | .string _ => rfl
  | .object o => by rw [value.copy, copy_object_eq o]
  | .number _ => rfl
  | .boolean _ => rfl
  | .null => rfl
theorem copy_array_eq : ∀ a : List value, copy_array a = a
  | [] => rfl
  | x :: rest => by rw [copy_array, value.copy_eq x, copy_array_eq rest]
theorem copy_object_eq : ∀ o : List (String × value), copy_object o = o
  | [] => rfl
  | (k, x) :: rest => by rw [copy_object, value.copy_eq x, copy_object_eq rest]
end

theorem is_each_iff (p : value → Bool) (l : List value) :
    is_each p l = true ↔ ∀ x ∈ l, p x = true := by
  induction l with
  | nil => simp [is_each]
  | cons x rest ih => cases h : p x <;> simp [is_each, h, ih]

theorem is_each_second_iff (p : value → Bool) (l : List (String × value)) :
    is_each_second p l = true ↔ ∀ e ∈ l, p e.2 = true := by
  induction l with
  | nil => simp [is_each_second]
  | cons x rest ih => cases h : p x.2 <;> simp [is_each_second, h, ih]

theorem as_each_ok {α : Type} (f : value → Except runtime_error α) (l : List value) :
    (∀ x ∈ l, ∃ r, f x = .ok r) → ∀ acc, ∃ rs, as_each f l acc = .ok rs := by
  induction l with
  | nil => intro _ acc; exact ⟨acc, rfl⟩
  | cons x rest ih =>
    intro h acc
    obtain ⟨r, hr⟩ := h x (List.mem_cons_self _ _)
    simp only [as_each, hr]
    exact ih (fun y hy => h y (List.mem_cons_of_mem _ hy)) _

theorem as_each_second_ok {α : Type} (f : value → Except runtime_error α)
    (l : List (String × value)) :
    (∀ e ∈ l, ∃ r, f e.2 = .ok r) → ∀ acc, ∃ rs, as_each_second f l acc = .ok rs := by
  induction l with
  | nil => intro _ acc; exact ⟨acc, rfl⟩
  | cons x rest ih =>
    intro h acc
    obtain ⟨r, hr⟩ := h x (List.mem_cons_self _ _)
    simp only [as_each_second, hr]
    exact ih (fun y hy => h y (List.mem_cons_of_mem _ hy)) _

theorem as_ok_of_is (P : platform) (t : jtype) (v : value) (h : is t v = true) :
    ∃ r, as P t v = .ok r := by
  induction t generalizing v with
  | bool => exact ⟨v.storage_boolean, by simp [as, as_impl, h]⟩
  | value => exact ⟨_, rfl⟩
  | null => exact ⟨json.null.mk, by simp [as, as_impl, h]⟩
  | std_string => exact ⟨v.storage_str, by simp [as, as_impl, h]⟩
  | c_str => exact ⟨v.storage_str, by simp [as, as_impl, h]⟩
  | number n =>
    have h2 : is (.number .f64) v = true := h
    exact ⟨numeric.of_double P n v.storage_number, by simp [as, as_impl, h2]⟩
  | std_vector t ih =>
    have h2 := h
    simp only [is, is_impl] at h2
    split at h2
    · exact absurd h2 (by simp)
    · rw [is_each_iff] at h2
      simp only [as, as_impl, h, copy_array_eq]
      simpa using as_each_ok (as_impl P t) v.storage_arr (fun x hx => ih x (h2 x hx)) []
  | std_map t ih =>
    have h2 := h
    simp only [is, is_impl] at h2
    split at h2
    · exact absurd h2 (by simp)
    · rw [is_each_second_iff] at h2
      simp only [as, as_impl, h, copy_object_eq]
      simpa using as_each_second_ok (as_impl P t) v.storage_obj (fun x hx => ih x.2 (h2 x hx)) []

theorem as_error_of_not_is (P : platform) (t : jtype) (v : value) (ht : t ≠ jtype.value)
    (h : is t v = false) : as P t v = .error ⟨"Invalid JSON type."⟩ := by
  cases t with
  | value => exact absurd rfl ht
  | number n =>
    have h2 : is (.number .f64) v = false := h
    simp [as, as_impl, h2]
  | bool => simp [as, as_impl, h]
  | null => simp [as, as_impl, h]
  | std_string => simp [as, as_impl, h]
  | c_str => simp [as, as_impl, h]
  | std_vector t => simp [as, as_impl, h]
  | std_map t => simp [as, as_impl, h]

/-- C1: for every eligible type `T` and every value `v`, if `v.is<T>()` holds
then `v.as<T>()` returns a result: it does not throw, also for containers
nested to any depth, where `as` is invoked again on every element. -/
theorem is_implies_as_succeeds (P : platform) (t : jtype) (v : value)
    (h : is t v = true) : ∃ r : denote t, as P t v = Except.ok r :=
  as_ok_of_is P t v h

theorem is_implies_as_succeeds_witness :
    is (.std_map (.std_vector (.number (.sint 32))))
        (.object [("k", .array [.number (double.of_int 7)])]) = true ∧
      ∃ r : denote (.std_map (.std_vector (.number (.sint 32)))),
        as ⟨fun _ _ => 0⟩ (.std_map (.std_vector (.number (.sint 32))))
          (.object [("k", .array [.number (double.of_int 7)])]) = Except.ok r :=
  ⟨rfl, is_implies_as_succeeds _ _ _ rfl⟩

/-- C2: for every eligible type `T` other than the value type and every value
`v`, if `v.is<T>()` is false then `v.as<T>()` throws
`std::runtime_error("Invalid JSON type.")`; nothing is coerced. -/
theorem not_is_implies_as_throws (P : platform) (t : jtype) (v : value)
    (ht : t ≠ jtype.value) (h : is t v = false) :
    as P t v = Except.error ⟨"Invalid JSON type."⟩ :=
  as_error_of_not_is P t v ht h

theorem not_is_implies_as_throws_witness :
    jtype.std_vector jtype.bool ≠ jtype.value ∧
      is (.std_vector .bool) (.array [.boolean true, .string "x"]) = false ∧
      as ⟨fun _ _ => 0⟩ (.std_vector .bool) (.array [.boolean true, .string "x"]) =
        Except.error ⟨"Invalid JSON type."⟩ :=
  ⟨by decide, rfl, not_is_implies_as_throws _ _ _ (by decide) rfl⟩

/-- C3: for every value `v`, eligible type `T` and default `d`, `v.as<T>(d)`
returns a result `r` and never throws; `r` is the result of `v.as<T>()` when
`v.is<T>()` holds, and `r` is `d` otherwise. -/
theorem as_default_never_fails (P : platform) (t : jtype) (v : value) (d : denote t) :
    ∃ r : denote t, as_default P t v d = Except.ok r ∧
      (is t v = true → as P t v = Except.ok r) ∧ (is t v = false → r = d) := by
  cases h : is t v
  · exact ⟨d, by simp [as_default, h], by simp, fun _ => rfl⟩
  · obtain ⟨r, hr⟩ := as_ok_of_is P t v h
    exact ⟨r, by simp [as_default, h, hr], fun _ => hr, by simp⟩

theorem as_default_never_fails_witness :
    (∃ r : Bool, as_default ⟨fun _ _ => 0⟩ .bool (.string "s") true = Except.ok r ∧
      (is .bool (.string "s") = true → as ⟨fun _ _ => 0⟩ .bool (.string "s") = Except.ok r) ∧
      (is .bool (.string "s") = false → r = true)) ∧
    as_default ⟨fun _ _ => 0⟩ .bool (.string "s") true = Except.ok true ∧
    as_default ⟨fun _ _ => 0⟩ .std_string .null "hello" = Except.ok "hello" :=
  ⟨as_default_never_fails _ .bool (.string "s") true, rfl, rfl⟩

theorem is_array_eq (v : value) : is jtype.array v = (v.storage_type == type.array) := by
  cases v with
  | array a =>
    have h : is_each (fun _ => true) a = true := (is_each_iff _ _).2 (fun _ _ => rfl)
    simp [is, is_impl, jtype.array, value.storage_type, value.storage_arr, h]
  | _ => rfl

theorem is_object_eq (v : value) : is jtype.object v = (v.storage_type == type.object) := by
  cases v with
  | object o =>
    have h : is_each_second (fun _ => true) o = true :=
      (is_each_second_iff _ _).2 (fun _ _ => rfl)
    simp [is, is_impl, jtype.object, value.storage_type, value.storage_obj, h]
  | _ => rfl

/-- C10: for every value `v`, exactly one of the six kind predicates
`is<json::null>`, `is<bool>`, `is<double>`, `is<std::string>`,
`is<json::array>`, `is<json::object>` holds, and each of them holds exactly
when the discriminant of `v` is the matching kind. -/
theorem exactly_one_kind (v : value) :
    ([is .null v, is .bool v, is (.number .f64) v, is .std_string v,
        is jtype.array v, is jtype.object v].count true = 1) ∧
      is .null v = (v.storage_type == type.null) ∧
      is .bool v = (v.storage_type == type.boolean) ∧
      is (.number .f64) v = (v.storage_type == type.number) ∧
      is .std_string v = (v.storage_type == type.string) ∧
      is jtype.array v = (v.storage_type == type.array) ∧
      is jtype.object v = (v.storage_type == type.object) := by
  refine ⟨?_, rfl, rfl, rfl, rfl, is_array_eq v, is_object_eq v⟩
  rw [is_array_eq, is_object_eq]
  cases v <;> rfl

/-! ### Conversions between integers, floats and doubles -/

theorem log2_loop_spec : ∀ (fuel n : Nat), 0 < n → n ≤ fuel →
    2 ^ log2_loop fuel n ≤ n ∧ n < 2 ^ (log2_loop fuel n + 1)
  | 0, n, h0, h1 => by omega
  | fuel + 1, n, h0, h1 => by
    by_cases h2 : n < 2
    · simp only [log2_loop, h2, if_true]
      omega
    · simp only [log2_loop, h2, if_false]
      obtain ⟨ih1, ih2⟩ := log2_loop_spec fuel (n / 2) (by omega) (by omega)
      rw [pow_succ, pow_succ, pow_succ]
      rw [pow_succ] at ih2
      omega

theorem ilog2_spec (n : Nat) (h0 : 0 < n) : 2 ^ ilog2 n ≤ n ∧ n < 2 ^ (ilog2 n + 1) :=
  log2_loop_spec n n h0 (le_refl n)

theorem round_dyadic_int (n : Nat) (h1 : 2 ^ ilog2 n ≤ n) (h2 : n < 2 ^ (ilog2 n + 1))
    (h3 : ilog2 n < 1024) (hd : 52 < ilog2 n → n % 2 ^ (ilog2 n - 52) = 0) :
    round_dyadic 11 52 n 0 =
      (ilog2 n + 1023,
        (if ilog2 n ≤ 52 then n * 2 ^ (52 - ilog2 n) else n / 2 ^ (ilog2 n - 52)) - 2 ^ 52) ∧
    2 ^ 52 ≤ (if ilog2 n ≤ 52 then n * 2 ^ (52 - ilog2 n) else n / 2 ^ (ilog2 n - 52)) ∧
    (if ilog2 n ≤ 52 then n * 2 ^ (52 - ilog2 n) else n / 2 ^ (ilog2 n - 52)) < 2 ^ 53 := by
  generalize hL : ilog2 n = L at *
  have hn0 : n ≠ 0 := by
    intro h
    subst h
    have : 0 < 2 ^ L := Nat.two_pow_pos L
    omega
  by_cases hle : L ≤ 52
  · simp only [hle, if_true]
    have hb1 : 2 ^ 52 ≤ n * 2 ^ (52 - L) := by
      calc 2 ^ 52 = 2 ^ L * 2 ^ (52 - L) := by rw [← pow_add]; congr 1; omega
        _ ≤ n * 2 ^ (52 - L) := Nat.mul_le_mul_right _ h1
    have hb2 : n * 2 ^ (52 - L) < 2 ^ 53 := by
      calc n * 2 ^ (52 - L) < 2 ^ (L + 1) * 2 ^ (52 - L) :=
            Nat.mul_lt_mul_of_pos_right h2 (Nat.two_pow_pos _)
        _ = 2 ^ 53 := by rw [← pow_add]; congr 1; omega
    refine ⟨?_, hb1, hb2⟩
    unfold round_dyadic
    simp only [hn0, if_false, hL]
    have hq : max ((L : Int) + 0) (1 - (2 ^ (11 - 1) - 1)) - ((52 : Nat) : Int) =
        (L : Int) - 52 := by
      have hmax : max ((L : Int) + 0) (1 - (2 ^ (11 - 1) - 1)) = (L : Int) := by
        apply max_eq_left
        norm_num
        omega
      rw [hmax]
      rfl
    simp only [hq]
    have hA : (L : Int) - 52 ≤ 0 := by omega
    have hB : (0 - ((L : Int) - 52)).toNat = 52 - L := by omega
    have h53 : (2 : Nat) ^ (52 + 1) = 2 ^ 53 := rfl
    have hC : ¬ n * 2 ^ (52 - L) = 2 ^ 53 := by omega
    have hD : ¬ n * 2 ^ (52 - L) < 2 ^ 52 := by omega
    simp only [hA, if_true, hB, h53, hC, hD, if_false]
    have hE : ((L : Int) - 52 + ((52 : Nat) : Int) + (2 ^ (11 - 1) - 1)).toNat = L + 1023 := by
      norm_num
      omega
    have hF : ¬ (2 ^ 11 - 1 ≤ L + 1023) := by
      norm_num
      omega
    simp only [hE, hF, if_false]
  · simp only [hle, if_false]
    have hs : L = 52 + (L - 52) := by omega
    have hr : n % 2 ^ (L - 52) = 0 := hd (by omega)
    have hb1 : 2 ^ 52 ≤ n / 2 ^ (L - 52) := by
      rw [Nat.le_div_iff_mul_le (Nat.two_pow_pos _), ← pow_add, ← hs]
      exact h1
    have hb2 : n / 2 ^ (L - 52) < 2 ^ 53 := by
      rw [Nat.div_lt_iff_lt_mul (Nat.two_pow_pos _), ← pow_add]
      have : 53 + (L - 52) = L + 1 := by omega
      rw [this]
      exact h2
    refine ⟨?_, hb1, hb2⟩
    unfold round_dyadic
    simp only [hn0, if_false, hL]
    have hq : max ((L : Int) + 0) (1 - (2 ^ (11 - 1) - 1)) - ((52 : Nat) : Int) =
        (L : Int) - 52 := by
      have hmax : max ((L : Int) + 0) (1 - (2 ^ (11 - 1) - 1)) = (L : Int) := by
        apply max_eq_left
        norm_num
        omega
      rw [hmax]
      rfl
    simp only [hq]
    have hA : ¬ (L : Int) - 52 ≤ 0 := by omega
    have hB : ((L : Int) - 52 - 0).toNat = L - 52 := by omega
    have h53 : (2 : Nat) ^ (52 + 1) = 2 ^ 53 := rfl
    have hC : ¬ n / 2 ^ (L - 52) = 2 ^ 53 := by omega
    have hD : ¬ n / 2 ^ (L - 52) < 2 ^ 52 := by omega
    have hpos : 0 < 2 ^ (L - 52 - 1) := Nat.two_pow_pos _
    have hG : ¬ (2 ^ (L - 52 - 1) < 0 ∨ 0 = 2 ^ (L - 52 - 1) ∧ n / 2 ^ (L - 52) % 2 = 1) := by
      omega
    simp only [hA, if_false, hB, hr, hG, h53, hC, hD]
    have hE : ((L : Int) - 52 + ((52 : Nat) : Int) + (2 ^ (11 - 1) - 1)).toNat = L + 1023 := by
      norm_num
      omega
    have hF : ¬ (2 ^ 11 - 1 ≤ L + 1023) := by
      norm_num
      omega
    simp only [hE, hF, if_false]

set_option exponentiation.threshold 2000 in
theorem trunc_zero : (double.of_fields false 0 0).trunc = some (0 : Int) := rfl

theorem of_int_trunc (n : Nat) (h : double.representable n) :
    (double.of_int (n : Int)).trunc = some (n : Int) := by
  obtain ⟨m, e, hm, he, hn⟩ := h
  by_cases h0 : n = 0
  · subst h0
    exact trunc_zero
  · have hpos : 0 < n := Nat.pos_of_ne_zero h0
    obtain ⟨h1, h2⟩ := ilog2_spec n hpos
    have hlt2 : 2 ^ ilog2 n < 2 ^ (53 + e) := by
      calc 2 ^ ilog2 n ≤ n := h1
        _ = m * 2 ^ e := hn
        _ < 2 ^ 53 * 2 ^ e := Nat.mul_lt_mul_of_pos_right hm (Nat.two_pow_pos _)
        _ = 2 ^ (53 + e) := by rw [pow_add]
    have hlt3 : ilog2 n < 53 + e := (Nat.pow_lt_pow_iff_right (by decide)).1 hlt2
    have h3 : ilog2 n < 1024 := by omega
    have hd : 52 < ilog2 n → n % 2 ^ (ilog2 n - 52) = 0 := by
      intro _
      have hle : ilog2 n - 52 ≤ e := by omega
      have hdvd : 2 ^ (ilog2 n - 52) ∣ m * 2 ^ e := Dvd.dvd.mul_left (pow_dvd_pow 2 hle) m
      rw [← hn] at hdvd
      exact Nat.mod_eq_zero_of_dvd hdvd
    obtain ⟨hr, hb1, hb2⟩ := round_dyadic_int n h1 h2 h3 hd
    generalize hL : ilog2 n = L at *
    generalize hnn : (if L ≤ 52 then n * 2 ^ (52 - L) else n / 2 ^ (L - 52)) = nn at *
    have hof : double.of_int (n : Int) = double.of_fields false (L + 1023) (nn - 2 ^ 52) := by
      simp only [double.of_int, Int.natAbs_ofNat, hr]
      congr 1
    rw [hof]
    simp only [double.trunc, double.is_special, double.significand, double.scale,
      double.of_fields]
    have hx1 : (L + 1023) % 2048 = L + 1023 := by omega
    have hx2 : ((L + 1023 == 2047) = true) = False := by
      simp only [beq_iff_eq, eq_iff_iff, iff_false]
      omega
    have hx3 : ¬ L + 1023 = 0 := by omega
    have hx4 : (nn - 2 ^ 52) % 2 ^ 52 = nn - 2 ^ 52 := by omega
    have hx5 : 2 ^ 52 + (nn - 2 ^ 52) = nn := by omega
    simp only [hx1, hx2, hx3, hx4, hx5, if_false, Bool.false_eq_true]
    refine congrArg (fun x : Nat => some (x : Int)) ?_
    rcases Nat.lt_trichotomy L 52 with hc | hc | hc
    · have hy1 : ¬ (0 : Int) ≤ ((L + 1023 : Nat) : Int) - 1075 := by omega
      have hy2 : (-(((L + 1023 : Nat) : Int) - 1075)).toNat = 52 - L := by omega
      have hy3 : L ≤ 52 := by omega
      simp only [hy3, if_true] at hnn
      simp only [hy1, if_false, hy2, ← hnn]
      rw [Nat.mul_div_cancel _ (Nat.two_pow_pos _)]
    · subst hc
      have hy1 : (0 : Int) ≤ ((52 + 1023 : Nat) : Int) - 1075 := by omega
      have hy2 : (((52 + 1023 : Nat) : Int) - 1075).toNat = 0 := by omega
      simp only [le_refl, if_true, Nat.sub_self, pow_zero, mul_one] at hnn
      simp only [hy1, if_true, hy2, pow_zero, mul_one, hnn]
    · have hy1 : (0 : Int) ≤ ((L + 1023 : Nat) : Int) - 1075 := by omega
      have hy2 : (((L + 1023 : Nat) : Int) - 1075).toNat = L - 52 := by omega
      have hy3 : ¬ L ≤ 52 := by omega
      simp only [hy3, if_false] at hnn
      simp only [hy1, if_true, hy2, ← hnn]
      rw [Nat.div_mul_cancel (Nat.dvd_of_mod_eq_zero (hd hc))]

theorem representable_small (k : Nat) (hk : k ≤ 2 ^ 53) : double.representable k := by
  by_cases h : k = 2 ^ 53
  · exact ⟨1, 53, by decide, by decide, by rw [h, one_mul]⟩
  · exact ⟨k, 0, by omega, by decide, by rw [pow_zero, mul_one]⟩

theorem trunc_negated (ex fr : Nat) (z : Int)
    (h : (double.of_fields false ex fr).trunc = some z) :
    (double.of_fields true ex fr).trunc = some (-z) := by
  simp only [double.trunc, double.is_special, double.significand, double.scale,
    double.of_fields] at h ⊢
  split at h
  · cases h
  · rename_i hs
    simp only [hs, if_false]
    simp only [Bool.false_eq_true, if_false, Option.some.injEq] at h
    simp only [if_true, h]
    rfl

theorem of_int_trunc_signed (x : Int) (h : double.representable x.natAbs) :
    (double.of_int x).trunc = some x := by
  have hpos := of_int_trunc x.natAbs h
  by_cases hx : x < 0
  · have hneg : double.of_int x =
        double.of_fields true (round_dyadic 11 52 x.natAbs 0).1
          (round_dyadic 11 52 x.natAbs 0).2 := by
      simp only [double.of_int, hx, decide_True]
    have hnat : double.of_int ((x.natAbs : Nat) : Int) =
        double.of_fields false (round_dyadic 11 52 x.natAbs 0).1
          (round_dyadic 11 52 x.natAbs 0).2 := by
      have hnn : ¬ ((x.natAbs : Nat) : Int) < 0 := by omega
      simp only [double.of_int, Int.natAbs_ofNat, hnn, decide_False]
    rw [hnat] at hpos
    rw [hneg, trunc_negated _ _ _ hpos]
    congr 1
    omega
  · have hx2 : ((x.natAbs : Nat) : Int) = x := by omega
    rw [hx2] at hpos
    exact hpos

theorem ilog2_unique (n k : Nat) (h1 : 2 ^ k ≤ n) (h2 : n < 2 ^ (k + 1)) : ilog2 n = k := by
  have hpos : 0 < n := lt_of_lt_of_le (Nat.two_pow_pos k) h1
  obtain ⟨h3, h4⟩ := ilog2_spec n hpos
  by_contra hne
  rcases Nat.lt_or_gt_of_ne hne with hlt | hgt
  · have : 2 ^ (ilog2 n + 1) ≤ 2 ^ k := Nat.pow_le_pow_right (by decide) hlt
    omega
  · have : 2 ^ (k + 1) ≤ 2 ^ ilog2 n := Nat.pow_le_pow_right (by decide) hgt
    omega

theorem scaled_bounds (m L : Nat) (h1 : 2 ^ L ≤ m) (h2 : m < 2 ^ (L + 1)) (hL : L ≤ 52) :
    2 ^ 52 ≤ m * 2 ^ (52 - L) ∧ m * 2 ^ (52 - L) < 2 ^ 53 := by
  constructor
  · calc 2 ^ 52 = 2 ^ L * 2 ^ (52 - L) := by rw [← pow_add]; congr 1; omega
      _ ≤ m * 2 ^ (52 - L) := Nat.mul_le_mul_right _ h1
  · calc m * 2 ^ (52 - L) < 2 ^ (L + 1) * 2 ^ (52 - L) :=
          Nat.mul_lt_mul_of_pos_right h2 (Nat.two_pow_pos _)
      _ = 2 ^ 53 := by rw [← pow_add]; congr 1; omega

theorem round_dyadic_widen (m k : Nat) (hm0 : 0 < m) (hm : m < 2 ^ 24) (hk : k ≤ 253) :
    round_dyadic 11 52 m ((k : Int) - 149) =
      (ilog2 m + k + 874, m * 2 ^ (52 - ilog2 m) - 2 ^ 52) := by
  obtain ⟨h1, h2⟩ := ilog2_spec m hm0
  have hL : ilog2 m < 24 := by
    by_contra hge
    have : 2 ^ 24 ≤ 2 ^ ilog2 m := Nat.pow_le_pow_right (by decide) (Nat.le_of_not_lt hge)
    omega
  obtain ⟨hb1, hb2⟩ := scaled_bounds m (ilog2 m) h1 h2 (by omega)
  generalize hLe : ilog2 m = L at *
  have hn0 : m ≠ 0 := by omega
  unfold round_dyadic
  simp only [hn0, if_false, hLe]
  have hq : max ((L : Int) + ((k : Int) - 149)) (1 - (2 ^ (11 - 1) - 1)) - ((52 : Nat) : Int) =
      (L : Int) + k - 201 := by
    have hmax : max ((L : Int) + ((k : Int) - 149)) (1 - (2 ^ (11 - 1) - 1)) =
        (L : Int) + ((k : Int) - 149) := by
      apply max_eq_left
      norm_num
      omega
    rw [hmax]
    omega
  simp only [hq]
  have hA : (L : Int) + k - 201 ≤ (k : Int) - 149 := by omega
  have hB : ((k : Int) - 149 - ((L : Int) + k - 201)).toNat = 52 - L := by omega
  have h53 : (2 : Nat) ^ (52 + 1) = 2 ^ 53 := rfl
  have hC : ¬ m * 2 ^ (52 - L) = 2 ^ 53 := by omega
  have hD : ¬ m * 2 ^ (52 - L) < 2 ^ 52 := by omega
  simp only [hA, if_true, hB, h53, hC, hD, if_false]
  have hE : ((L : Int) + k - 201 + ((52 : Nat) : Int) + (2 ^ (11 - 1) - 1)).toNat =
      L + k + 874 := by
    norm_num
    omega
  have hF : ¬ (2 ^ 11 - 1 ≤ L + k + 874) := by
    norm_num
    omega
  simp only [hE, hF, if_false]

theorem round_dyadic_narrow (m ex : Nat) (h1 : 2 ^ 23 ≤ m) (h2 : m < 2 ^ 24) (hex1 : 1 ≤ ex)
    (hex2 : ex ≤ 254) :
    round_dyadic 8 23 (m * 2 ^ 29) ((ex : Int) - 179) = (ex, m - 2 ^ 23) := by
  have hlog : ilog2 (m * 2 ^ 29) = 52 := ilog2_unique _ 52 (by omega) (by omega)
  have hn0 : m * 2 ^ 29 ≠ 0 := by omega
  unfold round_dyadic
  simp only [hn0, if_false, hlog]
  have hq : max (((52 : Nat) : Int) + ((ex : Int) - 179)) (1 - (2 ^ (8 - 1) - 1)) -
      ((23 : Nat) : Int) = (ex : Int) - 150 := by
    have hmax : max (((52 : Nat) : Int) + ((ex : Int) - 179)) (1 - (2 ^ (8 - 1) - 1)) =
        ((52 : Nat) : Int) + ((ex : Int) - 179) := by
      apply max_eq_left
      norm_num
      omega
    rw [hmax]
    omega
  simp only [hq]
  have hA : ¬ (ex : Int) - 150 ≤ (ex : Int) - 179 := by omega
  have hB : ((ex : Int) - 150 - ((ex : Int) - 179)).toNat = 29 := by omega
  have hdiv : m * 2 ^ 29 / 2 ^ 29 = m := Nat.mul_div_cancel _ (Nat.two_pow_pos _)
  have hmod : m * 2 ^ 29 % 2 ^ 29 = 0 := Nat.mul_mod_left _ _
  have hG : ¬ (2 ^ (29 - 1) < 0 ∨ 0 = 2 ^ (29 - 1) ∧ m % 2 = 1) := by
    norm_num
  have h24 : (2 : Nat) ^ (23 + 1) = 2 ^ 24 := rfl
  have hC : ¬ m = 2 ^ 24 := by omega
  have hD : ¬ m < 2 ^ 23 := by omega
  simp only [hA, if_false, hB, hdiv, hmod, hG, h24, hC, hD]
  have hE : ((ex : Int) - 150 + ((23 : Nat) : Int) + (2 ^ (8 - 1) - 1)).toNat = ex := by
    norm_num
    omega
  have hF : ¬ (2 ^ 8 - 1 ≤ ex) := by
    norm_num
    omega
  simp only [hE, hF, if_false]

theorem round_dyadic_narrow_subnormal (m : Nat) (hm0 : 0 < m) (hm : m < 2 ^ 23) :
    round_dyadic 8 23 (m * 2 ^ (52 - ilog2 m)) ((ilog2 m : Int) - 201) = (0, m) := by
  obtain ⟨h1, h2⟩ := ilog2_spec m hm0
  have hL : ilog2 m < 23 := by
    by_contra hge
    have : 2 ^ 23 ≤ 2 ^ ilog2 m := Nat.pow_le_pow_right (by decide) (Nat.le_of_not_lt hge)
    omega
  obtain ⟨hb1, hb2⟩ := scaled_bounds m (ilog2 m) h1 h2 (by omega)
  generalize ilog2 m = L at *
  have hlog : ilog2 (m * 2 ^ (52 - L)) = 52 := ilog2_unique _ 52 hb1 hb2
  have hn0 : m * 2 ^ (52 - L) ≠ 0 := by omega
  unfold round_dyadic
  simp only [hn0, if_false, hlog]
  have hq : max (((52 : Nat) : Int) + ((L : Int) - 201)) (1 - (2 ^ (8 - 1) - 1)) -
      ((23 : Nat) : Int) = -149 := by
    have hmax : max (((52 : Nat) : Int) + ((L : Int) - 201)) (1 - (2 ^ (8 - 1) - 1)) =
        1 - (2 ^ (8 - 1) - 1) := by
      apply max_eq_right
      norm_num
      omega
    rw [hmax]
    norm_num
  simp only [hq]
  have hA : ¬ (-149 : Int) ≤ (L : Int) - 201 := by omega
  have hB : ((-149 : Int) - ((L : Int) - 201)).toNat = 52 - L := by omega
  have hdiv : m * 2 ^ (52 - L) / 2 ^ (52 - L) = m := Nat.mul_div_cancel _ (Nat.two_pow_pos _)
  have hmod : m * 2 ^ (52 - L) % 2 ^ (52 - L) = 0 := Nat.mul_mod_left _ _
  have hpos : 0 < 2 ^ (52 - L - 1) := Nat.two_pow_pos _
  have hG : ¬ (2 ^ (52 - L - 1) < 0 ∨ 0 = 2 ^ (52 - L - 1) ∧ m % 2 = 1) := by omega
  have h24 : (2 : Nat) ^ (23 + 1) = 2 ^ 24 := rfl
  have hC : ¬ m = 2 ^ 24 := by omega
  simp only [hA, if_false, hB, hdiv, hmod, hG, h24, hC, hm, if_true]

theorem float_of_fields_self (f : float) :
    float.of_fields f.sign f.exponent.val f.fraction.val = f := by
  obtain ⟨s, ⟨ex, hex⟩, ⟨fr, hfr⟩⟩ := f
  simp only [float.of_fields, float.mk.injEq, Fin.mk.injEq, true_and]
  exact ⟨Nat.mod_eq_of_lt hex, Nat.mod_eq_of_lt hfr⟩

theorem to_float_of_fields (s : Bool) (E F : Nat) (hE : E < 2048) (hF : F < 2 ^ 52) :
    (double.of_fields s E F).to_float =
      if E = 2047 then
        if F = 0 then float.of_fields s 255 0
        else float.of_fields s 255 (F / 2 ^ 29 % 2 ^ 22 + 2 ^ 22)
      else
        float.of_fields s
          (round_dyadic 8 23 (if E = 0 then F else 2 ^ 52 + F)
            (if E = 0 then -1074 else (E : Int) - 1075)).1
          (round_dyadic 8 23 (if E = 0 then F else 2 ^ 52 + F)
            (if E = 0 then -1074 else (E : Int) - 1075)).2 := by
  simp only [double.to_float, double.is_special, double.significand, double.scale,
    double.of_fields, Nat.mod_eq_of_lt hE, Nat.mod_eq_of_lt hF, beq_iff_eq]

theorem float_round_trip (f : float) (h : f.is_signalling = false) :
    (float.to_double f).to_float = f := by
  obtain ⟨s, ⟨ex, hex⟩, ⟨fr, hfr⟩⟩ := f
  simp only [float.is_signalling] at h
  have hgoal : ∀ (e2 f2 : Nat), e2 = ex → f2 = fr →
      float.of_fields s e2 f2 = (⟨s, ⟨ex, hex⟩, ⟨fr, hfr⟩⟩ : float) := by
    intro e2 f2 he hf
    subst he hf
    exact float_of_fields_self ⟨s, ⟨e2, hex⟩, ⟨f2, hfr⟩⟩
  by_cases h255 : ex = 255
  · subst h255
    by_cases hf0 : fr = 0
    · subst hf0
      have hd : float.to_double ⟨s, ⟨255, hex⟩, ⟨0, hfr⟩⟩ = double.of_fields s 2047 0 := by
        simp only [float.to_double, if_true]
      rw [hd, to_float_of_fields s 2047 0 (by decide) (by decide)]
      simp only [if_true]
      exact hgoal 255 0 rfl rfl
    · have hq : 2 ^ 22 ≤ fr := by
        simp at h
        omega
      have hd : float.to_double ⟨s, ⟨255, hex⟩, ⟨fr, hfr⟩⟩ =
          double.of_fields s 2047 (fr % 2 ^ 22 * 2 ^ 29 + 2 ^ 51) := by
        simp only [float.to_double, if_true, hf0, if_false]
      have hne : ¬ fr % 2 ^ 22 * 2 ^ 29 + 2 ^ 51 = 0 := by omega
      rw [hd, to_float_of_fields s 2047 _ (by decide) (by omega)]
      simp only [if_true, hne, if_false]
      exact hgoal 255 _ rfl (by omega)
  · have hd : float.to_double ⟨s, ⟨ex, hex⟩, ⟨fr, hfr⟩⟩ =
        double.of_fields s
          (round_dyadic 11 52 (if ex = 0 then fr else 2 ^ 23 + fr)
            (if ex = 0 then -149 else (ex : Int) - 150)).1
          (round_dyadic 11 52 (if ex = 0 then fr else 2 ^ 23 + fr)
            (if ex = 0 then -149 else (ex : Int) - 150)).2 := by
      simp only [float.to_double, h255, if_false]
    rw [hd]
    by_cases hex0 : ex = 0
    · subst hex0
      simp only [if_true]
      by_cases hf0 : fr = 0
      · subst hf0
        have hr : round_dyadic 11 52 0 (-149) = (0, 0) := by simp [round_dyadic]
        rw [hr, to_float_of_fields s 0 0 (by decide) (by decide)]
        have hr2 : round_dyadic 8 23 0 (-1074) = (0, 0) := by simp [round_dyadic]
        simp only [if_true, hr2]
        exact hgoal 0 0 rfl rfl
      · have hpos : 0 < fr := Nat.pos_of_ne_zero hf0
        have hw := round_dyadic_widen fr 0 hpos (by omega) (by decide)
        obtain ⟨h1, h2⟩ := ilog2_spec fr hpos
        have hL : ilog2 fr < 23 := by
          by_contra hge
          have : 2 ^ 23 ≤ 2 ^ ilog2 fr :=
            Nat.pow_le_pow_right (by decide) (Nat.le_of_not_lt hge)
          omega
        obtain ⟨hb1, hb2⟩ := scaled_bounds fr (ilog2 fr) h1 h2 (by omega)
        have hns := round_dyadic_narrow_subnormal fr hpos hfr
        have he : ((0 : Nat) : Int) - 149 = -149 := by norm_num
        rw [he] at hw
        rw [hw, to_float_of_fields s _ _ (by omega) (by omega)]
        have hE1 : ¬ ilog2 fr + 0 + 874 = 2047 := by omega
        have hE2 : ¬ ilog2 fr + 0 + 874 = 0 := by omega
        have hsig : 2 ^ 52 + (fr * 2 ^ (52 - ilog2 fr) - 2 ^ 52) = fr * 2 ^ (52 - ilog2 fr) := by
          omega
        have hsc : ((ilog2 fr + 0 + 874 : Nat) : Int) - 1075 = (ilog2 fr : Int) - 201 := by
          omega
        simp only [hE1, hE2, if_false, hsig, hsc, hns]
        exact hgoal 0 fr rfl rfl
    · have hex1 : 1 ≤ ex := Nat.pos_of_ne_zero hex0
      have hex2 : ex ≤ 254 := by omega
      simp only [hex0, if_false]
      have hlog : ilog2 (2 ^ 23 + fr) = 23 := ilog2_unique _ 23 (by omega) (by omega)
      have hw := round_dyadic_widen (2 ^ 23 + fr) (ex - 1) (by omega) (by omega) (by omega)
      have he : ((ex - 1 : Nat) : Int) - 149 = (ex : Int) - 150 := by omega
      rw [he, hlog] at hw
      have hn := round_dyadic_narrow (2 ^ 23 + fr) ex (by omega) (by omega) hex1 hex2
      rw [hw, to_float_of_fields s _ _ (by omega) (by omega)]
      have hE1 : ¬ 23 + (ex - 1) + 874 = 2047 := by omega
      have hE2 : ¬ 23 + (ex - 1) + 874 = 0 := by omega
      have hsig : 2 ^ 52 + ((2 ^ 23 + fr) * 2 ^ (52 - 23) - 2 ^ 52) = (2 ^ 23 + fr) * 2 ^ 29 := by
        omega
      have hsc : ((23 + (ex - 1) + 874 : Nat) : Int) - 1075 = (ex : Int) - 179 := by omega
      simp only [hE1, hE2, if_false, hsig, hsc, hn]
      exact hgoal ex _ rfl (by omega)

/-! ### Native containers -/

theorem is_of_as_ok (P : platform) (t : jtype) (v : value) (r : denote t)
    (h : as P t v = .ok r) : is t v = true := by
  by_cases ht : t = jtype.value
  · subst ht; rfl
  · cases hi : is t v
    · rw [as_error_of_not_is P t v ht hi] at h
      cases h
    · rfl

theorem of_double_exact (P : platform) (n : numeric) (x : n.denote) (h : n.exact x) :
    numeric.of_double P n (numeric.to_double n x) = x := by
  cases n with
  | f64 => rfl
  | f32 => exact float_round_trip x h
  | sint w =>
    have ht := of_int_trunc_signed x h.2
    simp [numeric.of_double, numeric.to_double, h.1, ht]
  | uint w =>
    have ht := of_int_trunc_signed x h.2
    simp [numeric.of_double, numeric.to_double, h.1, ht]

theorem exact_of_small (w : Nat) (x : Int) (hx : x.natAbs ≤ 2 ^ 53) :
    (numeric.fits (.sint w) x = true → numeric.exact (.sint w) x) ∧
      (numeric.fits (.uint w) x = true → numeric.exact (.uint w) x) :=
  ⟨fun hf => ⟨hf, representable_small _ hx⟩, fun hf => ⟨hf, representable_small _ hx⟩⟩

theorem as_each_map {α : Type} (f : value → Except runtime_error α) (g : α → value)
    (l : List α) (h : ∀ x ∈ l, f (g x) = .ok x) :
    ∀ acc, as_each f (l.map g) acc = .ok (acc ++ l) := by
  induction l with
  | nil => intro acc; simp [as_each]
  | cons x rest ih =>
    intro acc
    simp only [List.map, as_each, h x (List.mem_cons_self _ _)]
    rw [ih (fun y hy => h y (List.mem_cons_of_mem _ hy))]
    simp

theorem map_assign_append {α : Type} (acc : List (String × α)) (k : String) (x : α)
    (h : ∀ e ∈ acc, less e.1 k = true) : map_assign acc k x = acc ++ [(k, x)] := by
  induction acc with
  | nil => rfl
  | cons e rest ih =>
    obtain ⟨k1, y⟩ := e
    have h1 : less k1 k = true := h (k1, y) (List.mem_cons_self _ _)
    have h2 : less k k1 = false := less_asymm _ _ h1
    simp only [map_assign, h1, h2, if_true, Bool.false_eq_true, if_false, List.cons_append]
    rw [ih (fun e he => h e (List.mem_cons_of_mem _ he))]

theorem as_each_second_map {α : Type} (f : value → Except runtime_error α) (g : α → value)
    (l : List (String × α)) (h : ∀ e ∈ l, f (g e.2) = .ok e.2) (hs : map_sorted l) :
    ∀ acc : List (String × α), (∀ a ∈ acc, ∀ e ∈ l, less a.1 e.1 = true) →
      as_each_second f (l.map (fun e => (e.1, g e.2))) acc = .ok (acc ++ l) := by
  induction l with
  | nil => intro acc _; simp [as_each_second]
  | cons e rest ih =>
    intro acc hacc
    obtain ⟨k, x⟩ := e
    have hx : f (g x) = .ok x := h (k, x) (List.mem_cons_self _ _)
    simp only [List.map, as_each_second, hx]
    rw [map_assign_append acc k x (fun a ha => hacc a ha (k, x) (List.mem_cons_self _ _))]
    rw [ih (fun y hy => h y (List.mem_cons_of_mem _ hy)) hs.2]
    · simp
    · intro a ha e he
      rcases List.mem_append.1 ha with ha | ha
      · exact hacc a ha e (List.mem_cons_of_mem _ he)
      · simp only [List.mem_singleton] at ha
        subst ha
        exact hs.1 e he

theorem as_vector_from_native (P : platform) (t : jtype) (c : List (denote t))
    (hall : ∀ x ∈ c, as_impl P t (from_native t x) = .ok x) :
    as P (.std_vector t) (from_native (.std_vector t) c) = .ok c := by
  have his : is (.std_vector t) (from_native (.std_vector t) c) = true := by
    simp only [is, is_impl, from_native, value.of_array, value.storage_type,
      value.storage_arr, copy_array_eq]
    simp only [bne_self_eq_false, Bool.false_eq_true, if_false, is_each_iff]
    intro x hx
    obtain ⟨y, hy, rfl⟩ := List.mem_map.1 hx
    exact is_of_as_ok P t _ y (hall y hy)
  simp only [as, as_impl, his]
  simp only [from_native, value.of_array, value.storage_arr, copy_array_eq]
  simpa using as_each_map (as_impl P t) (from_native t) c hall []

theorem as_map_from_native (P : platform) (t : jtype) (c : List (String × denote t))
    (hall : ∀ e ∈ c, as_impl P t (from_native t e.2) = .ok e.2) (hs : map_sorted c) :
    as P (.std_map t) (from_native (.std_map t) c) = .ok c := by
  have his : is (.std_map t) (from_native (.std_map t) c) = true := by
    simp only [is, is_impl, from_native, value.of_object, value.storage_type,
      value.storage_obj, copy_object_eq]
    simp only [bne_self_eq_false, Bool.false_eq_true, if_false, is_each_second_iff]
    intro x hx
    obtain ⟨y, hy, rfl⟩ := List.mem_map.1 hx
    exact is_of_as_ok P t _ y.2 (hall y hy)
  simp only [as, as_impl, his]
  simp only [from_native, value.of_object, value.storage_obj, copy_object_eq]
  simpa using as_each_second_map (as_impl P t) (from_native t) c hall hs []
    (fun a ha => absurd ha (List.not_mem_nil _))

theorem as_from_native (P : platform) (t : jtype) (c : denote t) (h : survives t c) :
    as P t (from_native t c) = .ok c := by
  induction t with
  | bool => rfl
  | value => simp [as, as_impl, from_native, value.copy_eq]
  | null => cases c; rfl
  | std_string => rfl
  | c_str => exact absurd h (by simp [survives])
  | number n =>
    simp only [survives] at h
    simp [as, as_impl, from_native, is, is_impl, value.of_double, value.storage_type,
      value.storage_number, of_double_exact P n c h]
  | std_vector t ih =>
    simp only [survives, each] at h
    exact as_vector_from_native P t c (fun x hx => ih x (h x hx))
  | std_map t ih =>
    simp only [survives, each] at h
    exact as_map_from_native P t c (fun e he => ih e.2 (h.2 e he)) h.1

/-- C4, as stated, fails: a sequence of `unsigned long long` holding
`2 ^ 53 + 1` is stored as the double `2 ^ 53`, and `as` gives back a sequence
holding `2 ^ 53`. -/
theorem container_round_trip_fails :
    as ⟨fun _ _ => 0⟩ (.std_vector (.number (.uint 64)))
        (from_native (.std_vector (.number (.uint 64))) [(9007199254740993 : Int)]) =
      Except.ok [(9007199254740992 : Int)] ∧
    as ⟨fun _ _ => 0⟩ (.std_vector (.number (.uint 64)))
        (from_native (.std_vector (.number (.uint 64))) [(9007199254740993 : Int)]) ≠
      Except.ok [(9007199254740993 : Int)] := by
  have h : as ⟨fun _ _ => 0⟩ (.std_vector (.number (.uint 64)))
        (from_native (.std_vector (.number (.uint 64))) [(9007199254740993 : Int)]) =
      Except.ok [(9007199254740992 : Int)] := rfl
  refine ⟨h, ?_⟩
  rw [h]
  intro h2
  injection h2 with h3
  injection h3 with h4
  exact absurd h4 (by decide : ¬ (9007199254740992 : Int) = 9007199254740993)

/-- C4, amended: for every native value `c` of an eligible type with no
`const char*` in it, whose maps are in key order and whose numbers are
exactly representable as a 64-bit float (every `double`; every `float` that
is not a signalling NaN; every integer, of either sign, that fits its type
and whose magnitude is a 53-bit significand times a power of two, in
particular every integer of magnitude at most `2 ^ 53` that fits its type),
building a value from `c` and calling `as` with the type of `c` succeeds and
gives `c` again: the same elements in the same order for a sequence, the same
entries for a mapping. -/
theorem container_round_trip (P : platform) (t : jtype) (c : denote t)
    (h : survives t c) :
    as P t (from_native t c) = Except.ok c ∧
      ∀ (w : Nat) (x : Int), x.natAbs ≤ 2 ^ 53 →
        (numeric.fits (.sint w) x = true → numeric.exact (.sint w) x) ∧
        (numeric.fits (.uint w) x = true → numeric.exact (.uint w) x) :=
  ⟨as_from_native P t c h, fun w x hx => exact_of_small w x hx⟩

theorem container_round_trip_witness :
    (survives (.std_map (.std_vector (.number (.sint 64))))
        [("a", [(1 : Int), (-9007199254740992 : Int)]), ("b", [])] ∧
      as ⟨fun _ _ => 0⟩ (.std_map (.std_vector (.number (.sint 64))))
        (from_native (.std_map (.std_vector (.number (.sint 64))))
          [("a", [(1 : Int), (-9007199254740992 : Int)]), ("b", [])]) =
        Except.ok [("a", [(1 : Int), (-9007199254740992 : Int)]), ("b", [])]) ∧
    (survives (.std_vector (.number .f32))
        [(⟨false, 127, 4194304⟩ : float), ⟨true, 0, 0⟩, ⟨false, 0, 1⟩, ⟨true, 255, 0⟩,
          ⟨false, 255, 4194305⟩] ∧
      as ⟨fun _ _ => 0⟩ (.std_vector (.number .f32))
        (from_native (.std_vector (.number .f32))
          [(⟨false, 127, 4194304⟩ : float), ⟨true, 0, 0⟩, ⟨false, 0, 1⟩, ⟨true, 255, 0⟩,
            ⟨false, 255, 4194305⟩]) =
        Except.ok [(⟨false, 127, 4194304⟩ : float), ⟨true, 0, 0⟩, ⟨false, 0, 1⟩,
          ⟨true, 255, 0⟩, ⟨false, 255, 4194305⟩]) := by
  have hs1 : survives (.std_map (.std_vector (.number (.sint 64))))
      [("a", [(1 : Int), (-9007199254740992 : Int)]), ("b", [])] := by
    simp only [survives, each, map_sorted]
    refine ⟨⟨?_, ?_, trivial⟩, ?_⟩
    · intro e he
      simp only [List.mem_singleton] at he
      subst he
      rfl
    · intro e he
      exact absurd he (List.not_mem_nil _)
    · intro e he x hx
      simp only [List.mem_cons, List.mem_singleton, List.not_mem_nil, or_false] at he
      rcases he with he | he
      · subst he
        simp only [List.mem_cons, List.mem_singleton, List.not_mem_nil, or_false] at hx
        rcases hx with hx | hx
        · subst hx
          exact (exact_of_small 64 1 (by decide)).1 rfl
        · subst hx
          exact (exact_of_small 64 (-9007199254740992) (by decide)).1 rfl
      · subst he
        exact absurd hx (List.not_mem_nil _)
  have hs2 : survives (.std_vector (.number .f32))
      [(⟨false, 127, 4194304⟩ : float), ⟨true, 0, 0⟩, ⟨false, 0, 1⟩, ⟨true, 255, 0⟩,
        ⟨false, 255, 4194305⟩] := by
    simp only [survives, each, numeric.exact]
    intro x hx
    simp only [List.mem_cons, List.mem_singleton, List.not_mem_nil, or_false] at hx
    rcases hx with hx | hx | hx | hx | hx <;> subst hx <;> rfl
  exact ⟨⟨hs1, (container_round_trip _ _ _ hs1).1⟩, ⟨hs2, (container_round_trip _ _ _ hs2).1⟩⟩

/-! ### Convenience indexing -/

theorem map_find_of_mem {α : Type} (o : List (String × α)) (k : String) (x : α)
    (hs : map_sorted o) (h : (k, x) ∈ o) : map_find o k = some x := by
  induction o with
  | nil => exact absurd h (List.not_mem_nil _)
  | cons e rest ih =>
    obtain ⟨k1, y⟩ := e
    rcases List.mem_cons.1 h with h1 | h1
    · cases h1
      simp [map_find, less_irrefl]
    · have h2 : less k1 k = true := hs.1 (k, x) h1
      simp only [map_find, h2, Bool.not_true, Bool.false_and, Bool.false_eq_true, if_false]
      exact ih hs.2 h1

theorem map_find_none {α : Type} (o : List (String × α)) (k : String)
    (h : ∀ x, (k, x) ∉ o) : map_find o k = none := by
  induction o with
  | nil => rfl
  | cons e rest ih =>
    obtain ⟨k1, y⟩ := e
    have hne : k1 ≠ k := fun hk => h y (by rw [← hk]; exact List.mem_cons_self _ _)
    have hc : (!less k1 k && !less k k1) = false := by
      cases h1 : less k1 k
      · cases h2 : less k k1
        · exact absurd (less_equiv k1 k h1 h2) hne
        · rfl
      · rfl
    simp only [map_find, hc, Bool.false_eq_true, if_false]
    exact ih (fun x hx => h x (List.mem_cons_of_mem _ hx))

/-- C5: for every value `v` and string key `k`, `v[k]` is a value (the call
cannot fail, and `v`, read only, is unchanged): it is the value mapped to `k`
when `v` is an Object holding an entry of key `k` (the keys of its map being
in strictly increasing order, as in every `std::map`), and a fresh Null value
in every other case. -/
theorem operator_key_spec (v : value) (k : String) :
    (∀ o x, v = value.object o → map_sorted o → (k, x) ∈ o → operator_key v k = x) ∧
      ((∀ o x, v = value.object o → (k, x) ∉ o) → operator_key v k = value.null) := by
  constructor
  · intro o x hv hs hm
    subst hv
    simp [operator_key, is_object_eq, value.storage_type, value.storage_obj,
      map_find_of_mem o k x hs hm, value.copy_eq]
  · intro h
    cases v with
    | object o =>
      simp [operator_key, is_object_eq, value.storage_type, value.storage_obj,
        map_find_none o k (fun x => h o x rfl), value.of_null]
    | _ => rfl

theorem operator_key_spec_witness :
    operator_key (.object [("a", .boolean true), ("b", .string "x")]) "b" = .string "x" ∧
      operator_key (.object [("a", .boolean true), ("b", .string "x")]) "c" = value.null ∧
      operator_key (.array [.boolean true]) "a" = value.null := by
  refine ⟨(operator_key_spec _ "b").1 _ _ rfl ?_ ?_, (operator_key_spec _ "c").2 ?_,
    (operator_key_spec _ "a").2 ?_⟩
  · refine ⟨?_, ?_, trivial⟩
    · intro e he
      simp only [List.mem_singleton] at he
      subst he
      rfl
    · intro e he
      exact absurd he (List.not_mem_nil _)
  · simp
  · intro o x ho hm
    injection ho with ho
    subst ho
    simp at hm
  · intro o x ho
    cases ho

theorem size_t_of_int_neg (i : Int) (h1 : -(2 ^ 63) ≤ i) (h2 : i < 0) :
    2 ^ 63 ≤ size_t_of_int i := by
  unfold size_t_of_int
  omega

theorem size_t_of_int_nonneg (i : Int) (h1 : 0 ≤ i) (h2 : i < 2 ^ 64) :
    size_t_of_int i = i.toNat := by
  unfold size_t_of_int
  omega

theorem operator_index_some (P : platform) (n : numeric) (v : value) (index : n.denote) :
    ∃ r, operator_index P n v index = some r := by
  unfold operator_index
  split
  · exact ⟨_, rfl⟩
  · simp only
    split
    · rename_i h
      rw [List.get?_eq_get h]
      exact ⟨_, rfl⟩
    · exact ⟨_, rfl⟩

theorem operator_index_array (P : platform) (n : numeric) (a : List value) (index : n.denote) :
    operator_index P n (.array a) index =
      if h : numeric.to_size_t P n index < a.length
      then some (a.get ⟨numeric.to_size_t P n index, h⟩) else some value.null := by
  simp only [operator_index, is_array_eq, value.storage_type, value.storage_arr]
  by_cases h : numeric.to_size_t P n index < a.length
  · simp [h, List.get?_eq_get h, value.copy_eq]
  · simp [h, value.of_null]

theorem operator_index_not_array (P : platform) (n : numeric) (v : value) (index : n.denote)
    (h : ∀ a, v ≠ .array a) : operator_index P n v index = some value.null := by
  cases v with
  | array a => exact absurd rfl (h a)
  | _ => rfl

/-- C6: for every value `v` and integer index `i` (of a signed or unsigned
integer type of at most 64 bits), `v[i]` is the element at position
`static_cast<size_t>(i)` when `v` is an Array and that position is less than the array length, and a fresh
Null value in every other case: `v` is not an Array, or the position is not
less than the length, which is so for every `i >= length` and, the length of
a vector being at most `2 ^ 63`, for every negative `i`.  The element access
`arr[index]` is never out of bounds, whatever the numeric type of the
index. -/
theorem operator_index_spec (P : platform) (w : Nat) (v : value) (i : Int) :
    operator_index P (.uint w) v i = operator_index P (.sint w) v i ∧
      (∀ (n : numeric) (index : n.denote), ∃ r, operator_index P n v index = some r) ∧
      (∀ a (h : size_t_of_int i < a.length), v = value.array a →
        operator_index P (.sint w) v i = some (a.get ⟨size_t_of_int i, h⟩)) ∧
      ((∀ a, v = value.array a → a.length ≤ size_t_of_int i) →
        operator_index P (.sint w) v i = some value.null) ∧
      (0 ≤ i → i < 2 ^ 64 → size_t_of_int i = i.toNat) ∧
      (-(2 ^ 63) ≤ i → i < 0 → (∀ a, v = value.array a → a.length ≤ 2 ^ 63) →
        operator_index P (.sint w) v i = some value.null) := by
  have hnull : (∀ a, v = value.array a → a.length ≤ size_t_of_int i) →
      operator_index P (.sint w) v i = some value.null := by
    intro h
    cases v with
    | array a =>
      rw [operator_index_array]
      have h1 : ¬ numeric.to_size_t P (.sint w) i < a.length :=
        Nat.not_lt.2 (h a rfl)
      simp [h1]
    | _ => rfl
  refine ⟨rfl, fun n index => operator_index_some P n v index, ?_, hnull,
    size_t_of_int_nonneg i, ?_⟩
  · intro a h hv
    subst hv
    rw [operator_index_array]
    have h1 : numeric.to_size_t P (.sint w) i < a.length := h
    simp only [h1, dite_true]
    rfl
  · intro h1 h2 hlen
    exact hnull (fun a ha => le_trans (hlen a ha) (size_t_of_int_neg i h1 h2))

theorem operator_index_spec_witness :
    operator_index ⟨fun _ _ => 0⟩ (.sint 32) (.array [.boolean true, .string "x"]) (1 : Int) =
        some (.string "x") ∧
      operator_index ⟨fun _ _ => 0⟩ (.sint 32) (.array [.boolean true, .string "x"]) (999 : Int) =
        some value.null ∧
      operator_index ⟨fun _ _ => 0⟩ (.sint 32) (.array [.boolean true, .string "x"]) (-1 : Int) =
        some value.null := by
  refine ⟨(operator_index_spec _ 32 _ 1).2.2.1 _ (by decide) rfl,
    (operator_index_spec _ 32 _ 999).2.2.2.1 ?_,
    (operator_index_spec _ 32 _ (-1)).2.2.2.2.2 (by decide) (by decide) ?_⟩
  · intro a ha
    injection ha with ha
    subst ha
    decide
  · intro a ha
    injection ha with ha
    subst ha
    decide

/-! ### The memory view: heaps and layouts -/

mutual
theorem value_induction_aux (p : value → Prop) (q : List value → Prop)
    (h_null : p .null) (h_boolean : ∀ b, p (.boolean b)) (h_number : ∀ d, p (.number d))
    (h_string : ∀ s, p (.string s)) (h_array : ∀ a, q a → p (.array a))
    (h_object : ∀ o : List (String × value), q (o.map Prod.snd) → p (.object o))
    (h_nil : q []) (h_cons : ∀ x xs, p x → q xs → q (x :: xs)) : ∀ v, p v
  | .null => h_null
  | .boolean b => h_boolean b
  | .number d => h_number d
  | .string s => h_string s
  | .array a => h_array a (value_induction_list p q h_null h_boolean h_number h_string
      h_array h_object h_nil h_cons a)
  | .object o => h_object o (value_induction_entries p q h_null h_boolean h_number h_string
      h_array h_object h_nil h_cons o)
theorem value_induction_list (p : value → Prop) (q : List value → Prop)
    (h_null : p .null) (h_boolean : ∀ b, p (.boolean b)) (h_number : ∀ d, p (.number d))
    (h_string : ∀ s, p (.string s)) (h_array : ∀ a, q a → p (.array a))
    (h_object : ∀ o : List (String × value), q (o.map Prod.snd) → p (.object o))
    (h_nil : q []) (h_cons : ∀ x xs, p x → q xs → q (x :: xs)) : ∀ a, q a
  | [] => h_nil
  | x :: xs => h_cons x xs
      (value_induction_aux p q h_null h_boolean h_number h_string h_array h_object h_nil h_cons x)
      (value_induction_list p q h_null h_boolean h_number h_string h_array h_object h_nil
        h_cons xs)
theorem value_induction_entries (p : value → Prop) (q : List value → Prop)
    (h_null : p .null) (h_boolean : ∀ b, p (.boolean b)) (h_number : ∀ d, p (.number d))
    (h_string : ∀ s, p (.string s)) (h_array : ∀ a, q a → p (.array a))
    (h_object : ∀ o : List (String × value), q (o.map Prod.snd) → p (.object o))
    (h_nil : q []) (h_cons : ∀ x xs, p x → q xs → q (x :: xs)) :
    ∀ o : List (String × value), q (o.map Prod.snd)
  | [] => h_nil
  | (_, x) :: xs => h_cons x (xs.map Prod.snd)
      (value_induction_aux p q h_null h_boolean h_number h_string h_array h_object h_nil h_cons x)
      (value_induction_entries p q h_null h_boolean h_number h_string h_array h_object h_nil
        h_cons xs)
end

namespace mem

theorem read_lt (h : heap) (p : Nat) (b : block) (hr : h.read p = some b) : p < h.length := by
  unfold heap.read at hr
  by_contra hlt
  rw [List.getElem?_eq_none (Nat.le_of_not_lt hlt)] at hr
  cases hr

theorem read_append (h ext : heap) (p : Nat) (hp : p < h.length) :
    heap.read (h ++ ext) p = h.read p := by
  unfold heap.read
  rw [List.getElem?_append_left hp]

theorem read_alloc (h : heap) (b : block) : (h.alloc b).1.read (h.alloc b).2 = some b := by
  simp [heap.read, heap.alloc]

theorem read_release_same (h : heap) (p : Nat) : (h.release p).read p = none := by
  unfold heap.read heap.release
  by_cases hp : p < h.length
  · rw [List.getElem?_set_self hp]
    rfl
  · rw [List.getElem?_eq_none (by simpa using Nat.le_of_not_lt hp)]
    rfl

theorem read_release_ne (h : heap) (p q : Nat) (hq : q ≠ p) :
    (h.release p).read q = h.read q := by
  unfold heap.read heap.release
  rw [List.getElem?_set_ne (Ne.symm hq)]

theorem length_release (h : heap) (p : Nat) : (h.release p).length = h.length := by
  simp [heap.release]

theorem layout_entries_eq (h : heap) : ∀ (es : List (String × value))
    (os : List (String × json.value)),
    layout_entries h es os =
      if es.map Prod.fst = os.map Prod.fst
      then layout_each h (es.map Prod.snd) (os.map Prod.snd) else none
  | [], [] => by simp [layout_entries, layout_each]
  | [], _ :: _ => by simp [layout_entries]
  | _ :: _, [] => by simp [layout_entries]
  | (k1, x) :: xs, (k2, t) :: ts => by
    simp only [layout_entries, layout_each, List.map, List.cons.injEq]
    rw [layout_entries_eq h xs ts]
    by_cases hk : k1 = k2
    · by_cases hks : xs.map Prod.fst = ts.map Prod.fst
      · simp [hk, hks]
      · simp only [hk, hks, if_true, if_false, and_false]
        cases layout h x t <;> rfl
    · simp [hk]

theorem layout_each_length (h : heap) : ∀ (vs : List value) (ts : List json.value) f,
    layout_each h vs ts = some f → vs.length = ts.length
  | [], [], _, _ => rfl
  | [], _ :: _, _, hl => by simp [layout_each] at hl
  | _ :: _, [], _, hl => by simp [layout_each] at hl
  | x :: xs, t :: ts, f, hl => by
    simp only [layout_each] at hl
    cases h1 : layout h x t with
    | none => simp [h1] at hl
    | some f1 =>
      cases h2 : layout_each h xs ts with
      | none => simp [h1, h2] at hl
      | some f2 => simp [layout_each_length h xs ts f2 h2]

theorem layout_each_cons (h : heap) (x : value) (xs : List value) (t : json.value)
    (ts : List json.value) (f : List Nat) (hl : layout_each h (x :: xs) (t :: ts) = some f) :
    ∃ f1 f2, layout h x t = some f1 ∧ layout_each h xs ts = some f2 ∧ f = f1 ++ f2 := by
  simp only [layout_each] at hl
  cases h1 : layout h x t with
  | none => simp [h1] at hl
  | some f1 =>
    cases h2 : layout_each h xs ts with
    | none => simp [h1, h2] at hl
    | some f2 =>
      simp only [h1, h2, Option.some.injEq] at hl
      exact ⟨f1, f2, rfl, rfl, hl.symm⟩

theorem layout_null (h : heap) (v : value) (f : List Nat) :
    layout h v .null = some f ↔ v.storage_type = type.null ∧ f = [] := by
  simp only [layout]
  split <;> simp_all [eq_comm]

theorem layout_boolean (h : heap) (v : value) (b : Bool) (f : List Nat) :
    layout h v (.boolean b) = some f ↔ v = ⟨.boolean b, type.boolean⟩ ∧ f = [] := by
  obtain ⟨st, ty⟩ := v
  simp only [layout]
  split
  · rename_i hc
    simp [hc.1, hc.2, eq_comm]
  · rename_i hc
    constructor
    · intro hl
      cases hl
    · rintro ⟨hv, _⟩
      cases hv
      exact absurd ⟨rfl, rfl⟩ hc

theorem layout_number (h : heap) (v : value) (d : double) (f : List Nat) :
    layout h v (.number d) = some f ↔ v = ⟨.number d, type.number⟩ ∧ f = [] := by
  obtain ⟨st, ty⟩ := v
  simp only [layout]
  split
  · rename_i hc
    simp [hc.1, hc.2, eq_comm]
  · rename_i hc
    constructor
    · intro hl
      cases hl
    · rintro ⟨hv, _⟩
      cases hv
      exact absurd ⟨rfl, rfl⟩ hc

theorem layout_string (h : heap) (v : value) (s : String) (f : List Nat) :
    layout h v (.string s) = some f ↔
      ∃ p, v = ⟨.str (some p), type.string⟩ ∧ h.read p = some (.str s) ∧ f = [p] := by
  obtain ⟨st, ty⟩ := v
  simp only [layout]
  constructor
  · intro hl
    split at hl
    · split at hl
      · split at hl
        · rename_i hty p hr
          simp only [Option.some.injEq] at hl
          exact ⟨_, by simp_all, hr, hl.symm⟩
        · cases hl
      · cases hl
    · cases hl
  · rintro ⟨p, hv, hr, rfl⟩
    cases hv
    simp [hr]

theorem layout_array (h : heap) (v : value) (a : List json.value) (f : List Nat) :
    layout h v (.array a) = some f ↔
      ∃ p elems fe, v = ⟨.arr (some p), type.array⟩ ∧ h.read p = some (.arr elems) ∧
        layout_each h elems a = some fe ∧ f = p :: fe := by
  obtain ⟨st, ty⟩ := v
  simp only [layout]
  constructor
  · intro hl
    split at hl
    · split at hl
      · split at hl
        · rename_i hty p _ elems hr
          cases hle : layout_each h elems a with
          | none => simp [hle] at hl
          | some fe =>
            simp only [hle, Option.map_some', Option.some.injEq] at hl
            exact ⟨_, elems, fe, by simp_all, hr, hle, hl.symm⟩
        · cases hl
      · cases hl
    · cases hl
  · rintro ⟨p, elems, fe, hv, hr, hle, rfl⟩
    cases hv
    simp [hr, hle]

theorem layout_object (h : heap) (v : value) (o : List (String × json.value)) (f : List Nat) :
    layout h v (.object o) = some f ↔
      ∃ p entries fe, v = ⟨.obj (some p), type.object⟩ ∧ h.read p = some (.obj entries) ∧
        entries.map Prod.fst = o.map Prod.fst ∧
        layout_each h (entries.map Prod.snd) (o.map Prod.snd) = some fe ∧ f = p :: fe := by
  obtain ⟨st, ty⟩ := v
  simp only [layout]
  constructor
  · intro hl
    split at hl
    · split at hl
      · split at hl
        · rename_i hty p _ entries hr
          rw [layout_entries_eq] at hl
          split at hl
          · rename_i hk
            cases hle : layout_each h (entries.map Prod.snd) (o.map Prod.snd) with
            | none => simp [hle] at hl
            | some fe =>
              simp only [hle, Option.map_some', Option.some.injEq] at hl
              exact ⟨_, entries, fe, by simp_all, hr, hk, hle, hl.symm⟩
          · cases hl
        · cases hl
      · cases hl
    · cases hl
  · rintro ⟨p, entries, fe, hv, hr, hk, hle, rfl⟩
    cases hv
    simp [hr, layout_entries_eq, hk, hle]

theorem layout_frame_both (h : heap) (t : json.value) :
    ∀ v f, layout h v t = some f →
      (∀ a ∈ f, a < h.length) ∧
        ∀ h1 : heap, (∀ a ∈ f, h1.read a = h.read a) → layout h1 v t = some f := by
  refine value_induction_aux
    (fun t => ∀ v f, layout h v t = some f →
      (∀ a ∈ f, a < h.length) ∧
        ∀ h1 : heap, (∀ a ∈ f, h1.read a = h.read a) → layout h1 v t = some f)
    (fun ts => ∀ vs f, layout_each h vs ts = some f →
      (∀ a ∈ f, a < h.length) ∧
        ∀ h1 : heap, (∀ a ∈ f, h1.read a = h.read a) → layout_each h1 vs ts = some f)
    ?_ ?_ ?_ ?_ ?_ ?_ ?_ ?_ t
  · intro v f hl
    obtain ⟨hv, rfl⟩ := (layout_null h v f).1 hl
    exact ⟨by simp, fun h1 _ => (layout_null h1 v []).2 ⟨hv, rfl⟩⟩
  · intro b v f hl
    obtain ⟨hv, rfl⟩ := (layout_boolean h v b f).1 hl
    exact ⟨by simp, fun h1 _ => (layout_boolean h1 v b []).2 ⟨hv, rfl⟩⟩
  · intro d v f hl
    obtain ⟨hv, rfl⟩ := (layout_number h v d f).1 hl
    exact ⟨by simp, fun h1 _ => (layout_number h1 v d []).2 ⟨hv, rfl⟩⟩
  · intro s v f hl
    obtain ⟨p, hv, hr, rfl⟩ := (layout_string h v s f).1 hl
    refine ⟨?_, fun h1 hf => (layout_string h1 v s [p]).2 ⟨p, hv, ?_, rfl⟩⟩
    · intro a ha
      simp only [List.mem_singleton] at ha
      subst ha
      exact read_lt h a _ hr
    · rw [hf p (List.mem_singleton_self p), hr]
  · intro a ih v f hl
    obtain ⟨p, elems, fe, hv, hr, hle, rfl⟩ := (layout_array h v a f).1 hl
    obtain ⟨hlt, hfr⟩ := ih elems fe hle
    refine ⟨?_, fun h1 hf => (layout_array h1 v a (p :: fe)).2 ⟨p, elems, fe, hv, ?_, ?_, rfl⟩⟩
    · intro x hx
      rcases List.mem_cons.1 hx with hx | hx
      · subst hx
        exact read_lt h x _ hr
      · exact hlt x hx
    · rw [hf p (List.mem_cons_self _ _), hr]
    · exact hfr h1 (fun x hx => hf x (List.mem_cons_of_mem _ hx))
  · intro o ih v f hl
    obtain ⟨p, entries, fe, hv, hr, hk, hle, rfl⟩ := (layout_object h v o f).1 hl
    obtain ⟨hlt, hfr⟩ := ih (entries.map Prod.snd) fe hle
    refine ⟨?_, fun h1 hf =>
      (layout_object h1 v o (p :: fe)).2 ⟨p, entries, fe, hv, ?_, hk, ?_, rfl⟩⟩
    · intro x hx
      rcases List.mem_cons.1 hx with hx | hx
      · subst hx
        exact read_lt h x _ hr
      · exact hlt x hx
    · rw [hf p (List.mem_cons_self _ _), hr]
    · exact hfr h1 (fun x hx => hf x (List.mem_cons_of_mem _ hx))
  · intro vs f hl
    cases vs with
    | nil =>
      simp only [layout_each, Option.some.injEq] at hl
      subst hl
      exact ⟨by simp, fun h1 _ => rfl⟩
    | cons x xs => simp [layout_each] at hl
  · intro t ts iht ihts vs f hl
    cases vs with
    | nil => simp [layout_each] at hl
    | cons x xs =>
      obtain ⟨f1, f2, h1, h2, rfl⟩ := layout_each_cons h x xs t ts f hl
      obtain ⟨hlt1, hfr1⟩ := iht x f1 h1
      obtain ⟨hlt2, hfr2⟩ := ihts xs f2 h2
      refine ⟨?_, fun h3 hf => ?_⟩
      · intro a ha
        rcases List.mem_append.1 ha with ha | ha
        · exact hlt1 a ha
        · exact hlt2 a ha
      · simp only [layout_each]
        rw [hfr1 h3 (fun a ha => hf a (List.mem_append_left _ ha)),
          hfr2 h3 (fun a ha => hf a (List.mem_append_right _ ha))]

theorem layout_lt (h : heap) (v : value) (t : json.value) (f : List Nat)
    (hl : layout h v t = some f) : ∀ a ∈ f, a < h.length :=
  (layout_frame_both h t v f hl).1

theorem layout_frame (h h1 : heap) (v : value) (t : json.value) (f : List Nat)
    (hl : layout h v t = some f) (hf : ∀ a ∈ f, h1.read a = h.read a) :
    layout h1 v t = some f :=
  (layout_frame_both h t v f hl).2 h1 hf

theorem layout_each_lt (h : heap) : ∀ (vs : List value) (ts : List json.value) (f : List Nat),
    layout_each h vs ts = some f → ∀ a ∈ f, a < h.length
  | [], [], f, hl => by
    simp only [layout_each, Option.some.injEq] at hl
    subst hl
    simp
  | [], _ :: _, _, hl => by simp [layout_each] at hl
  | _ :: _, [], _, hl => by simp [layout_each] at hl
  | x :: xs, t :: ts, f, hl => by
    obtain ⟨f1, f2, h1, h2, rfl⟩ := layout_each_cons h x xs t ts f hl
    intro a ha
    rcases List.mem_append.1 ha with ha | ha
    · exact layout_lt h x t f1 h1 a ha
    · exact layout_each_lt h xs ts f2 h2 a ha

theorem layout_each_frame (h h1 : heap) : ∀ (vs : List value) (ts : List json.value)
    (f : List Nat), layout_each h vs ts = some f → (∀ a ∈ f, h1.read a = h.read a) →
    layout_each h1 vs ts = some f
  | [], [], f, hl, _ => by
    simpa [layout_each] using hl
  | [], _ :: _, _, hl, _ => by simp [layout_each] at hl
  | _ :: _, [], _, hl, _ => by simp [layout_each] at hl
  | x :: xs, t :: ts, f, hl, hf => by
    obtain ⟨f1, f2, h2, h3, rfl⟩ := layout_each_cons h x xs t ts f hl
    simp only [layout_each]
    rw [layout_frame h h1 x t f1 h2 (fun a ha => hf a (List.mem_append_left _ ha)),
      layout_each_frame h h1 xs ts f2 h3 (fun a ha => hf a (List.mem_append_right _ ha))]

theorem layout_append (h ext : heap) (v : value) (t : json.value) (f : List Nat)
    (hl : layout h v t = some f) : layout (h ++ ext) v t = some f :=
  layout_frame h _ v t f hl (fun a ha => read_append h ext a (layout_lt h v t f hl a ha))

theorem layout_each_append (h ext : heap) (vs : List value) (ts : List json.value)
    (f : List Nat) (hl : layout_each h vs ts = some f) :
    layout_each (h ++ ext) vs ts = some f :=
  layout_each_frame h _ vs ts f hl
    (fun a ha => read_append h ext a (layout_each_lt h vs ts f hl a ha))

theorem copy_post_null : copy_post .null := by
  intro h v f this hl
  obtain ⟨hv, rfl⟩ := (layout_null h v f).1 hl
  refine ⟨1, [], ⟨this.storage, type.null⟩, [], fun fuel hfuel => ?_, ?_, List.nodup_nil,
    by simp, hv.symm⟩
  · cases fuel with
    | zero => omega
    | succ k => simp [copy, hv]
  · exact (layout_null _ _ _).2 ⟨rfl, rfl⟩

theorem copy_post_boolean (b : Bool) : copy_post (.boolean b) := by
  intro h v f this hl
  obtain ⟨hv, rfl⟩ := (layout_boolean h v b f).1 hl
  subst hv
  refine ⟨1, [], ⟨.boolean b, type.boolean⟩, [], fun fuel hfuel => ?_, ?_, List.nodup_nil,
    by simp, rfl⟩
  · cases fuel with
    | zero => omega
    | succ k => simp [copy]
  · exact (layout_boolean _ _ _ _).2 ⟨rfl, rfl⟩

theorem copy_post_number (d : double) : copy_post (.number d) := by
  intro h v f this hl
  obtain ⟨hv, rfl⟩ := (layout_number h v d f).1 hl
  subst hv
  refine ⟨1, [], ⟨.number d, type.number⟩, [], fun fuel hfuel => ?_, ?_, List.nodup_nil,
    by simp, rfl⟩
  · cases fuel with
    | zero => omega
    | succ k => simp [copy]
  · exact (layout_number _ _ _ _).2 ⟨rfl, rfl⟩

theorem copy_post_string (s : String) : copy_post (.string s) := by
  intro h v f this hl
  obtain ⟨p, hv, hr, rfl⟩ := (layout_string h v s f).1 hl
  subst hv
  refine ⟨1, [some (.str s)], ⟨.str (some h.length), type.string⟩, [h.length],
    fun fuel hfuel => ?_, ?_, List.nodup_singleton _, by simp, rfl⟩
  · cases fuel with
    | zero => omega
    | succ k => simp [copy, hr, heap.alloc]
  · exact (layout_string _ _ _ _).2 ⟨_, rfl, read_alloc h (.str s), rfl⟩

theorem copy_post_array (a : List json.value) (ih : copy_each_post a) :
    copy_post (.array a) := by
  intro h v f this hl
  obtain ⟨p, elems, fe, hv, hr, hle, rfl⟩ := (layout_array h v a f).1 hl
  obtain ⟨n, ext, ys, f1, hc, hly, hnd, hge⟩ := ih h elems fe hle
  subst hv
  refine ⟨n + 1, ext ++ [some (.arr ys)], ⟨.arr (some (h ++ ext).length), type.array⟩,
    (h ++ ext).length :: f1, fun fuel hfuel => ?_, ?_, ?_, ?_, rfl⟩
  · cases fuel with
    | zero => omega
    | succ k => simp only [copy, hr, hc k (by omega), heap.alloc, List.append_assoc]
  · rw [← List.append_assoc]
    refine (layout_array _ _ a _).2 ⟨_, ys, f1, rfl, ?_, layout_each_append _ _ ys a f1 hly, rfl⟩
    exact read_alloc (h ++ ext) (.arr ys)
  · refine List.nodup_cons.2 ⟨fun hm => ?_, hnd⟩
    exact absurd (layout_each_lt _ ys a f1 hly _ hm) (lt_irrefl _)
  · intro x hx
    rcases List.mem_cons.1 hx with hx | hx
    · subst hx
      simp
    · exact hge x hx

theorem copy_post_object (o : List (String × json.value))
    (ih : copy_each_post (o.map Prod.snd)) : copy_post (.object o) := by
  intro h v f this hl
  obtain ⟨p, entries, fe, hv, hr, hk, hle, rfl⟩ := (layout_object h v o f).1 hl
  obtain ⟨n, ext, ys, f1, hc, hly, hnd, hge⟩ := ih h (entries.map Prod.snd) fe hle
  subst hv
  have hlen : (entries.map Prod.fst).length = ys.length := by
    have h1 := layout_each_length _ ys (o.map Prod.snd) f1 hly
    have h2 := congrArg List.length hk
    simp only [List.length_map] at h1 h2 ⊢
    omega
  refine ⟨n + 1, ext ++ [some (.obj ((entries.map Prod.fst).zip ys))],
    ⟨.obj (some (h ++ ext).length), type.object⟩, (h ++ ext).length :: f1,
    fun fuel hfuel => ?_, ?_, ?_, ?_, rfl⟩
  · cases fuel with
    | zero => omega
    | succ k => simp only [copy, hr, hc k (by omega), heap.alloc, List.append_assoc]
  · rw [← List.append_assoc]
    refine (layout_object _ _ o _).2 ⟨_, (entries.map Prod.fst).zip ys, f1, rfl, ?_, ?_, ?_, rfl⟩
    · exact read_alloc (h ++ ext) _
    · rw [List.map_fst_zip _ _ (le_of_eq hlen), hk]
    · rw [List.map_snd_zip _ _ (le_of_eq hlen.symm)]
      exact layout_each_append _ _ ys _ f1 hly
  · refine List.nodup_cons.2 ⟨fun hm => ?_, hnd⟩
    exact absurd (layout_each_lt _ ys _ f1 hly _ hm) (lt_irrefl _)
  · intro x hx
    rcases List.mem_cons.1 hx with hx | hx
    · subst hx
      simp
    · exact hge x hx

theorem copy_each_post_nil : copy_each_post [] := by
  intro h vs f hl
  cases vs with
  | nil => exact ⟨0, [], [], [], fun _ _ => by simp [copy_each], by simp [layout_each],
      List.nodup_nil, by simp⟩
  | cons x xs => simp [layout_each] at hl

theorem copy_each_post_cons (t : json.value) (ts : List json.value) (iht : copy_post t)
    (ihts : copy_each_post ts) : copy_each_post (t :: ts) := by
  intro h vs f hl
  cases vs with
  | nil => simp [layout_each] at hl
  | cons x xs =>
    obtain ⟨f1, f2, h1, h2, rfl⟩ := layout_each_cons h x xs t ts f hl
    obtain ⟨n1, e1, y, g1, hc1, hy, hnd1, hge1, _⟩ := iht h x f1 ⟨.indeterminate, type.null⟩ h1
    obtain ⟨n2, e2, ys, g2, hc2, hys, hnd2, hge2⟩ :=
      ihts (h ++ e1) xs f2 (layout_each_append h e1 xs ts f2 h2)
    refine ⟨max n1 n2, e1 ++ e2, y :: ys, g1 ++ g2, fun fuel hfuel => ?_, ?_, ?_, ?_⟩
    · simp only [copy_each, hc1 fuel (le_trans (le_max_left _ _) hfuel),
        hc2 fuel (le_trans (le_max_right _ _) hfuel), List.append_assoc]
    · rw [← List.append_assoc]
      simp only [layout_each]
      rw [layout_append (h ++ e1) e2 y t g1 hy, hys]
    · refine List.nodup_append.2 ⟨hnd1, hnd2, ?_⟩
      intro a ha1 ha2
      have hlt := layout_lt _ y t g1 hy a ha1
      have hge := hge2 a ha2
      omega
    · intro a ha
      rcases List.mem_append.1 ha with ha | ha
      · exact hge1 a ha
      · have := hge2 a ha
        simp only [List.length_append] at this
        omega

theorem copy_post_all (t : json.value) : copy_post t :=
  value_induction_aux copy_post copy_each_post copy_post_null copy_post_boolean
    copy_post_number copy_post_string copy_post_array copy_post_object copy_each_post_nil
    copy_each_post_cons t

theorem clear_post_null : clear_post .null := by
  intro h v f hl _
  obtain ⟨hv, rfl⟩ := (layout_null h v f).1 hl
  refine ⟨1, h, fun fuel hfuel => ?_, rfl, fun _ _ => rfl, by simp⟩
  cases fuel with
  | zero => omega
  | succ k => simp [clear, hv]

theorem clear_post_boolean (b : Bool) : clear_post (.boolean b) := by
  intro h v f hl _
  obtain ⟨hv, rfl⟩ := (layout_boolean h v b f).1 hl
  subst hv
  refine ⟨1, h, fun fuel hfuel => ?_, rfl, fun _ _ => rfl, by simp⟩
  cases fuel with
  | zero => omega
  | succ k => simp [clear]

theorem clear_post_number (d : double) : clear_post (.number d) := by
  intro h v f hl _
  obtain ⟨hv, rfl⟩ := (layout_number h v d f).1 hl
  subst hv
  refine ⟨1, h, fun fuel hfuel => ?_, rfl, fun _ _ => rfl, by simp⟩
  cases fuel with
  | zero => omega
  | succ k => simp [clear]

theorem clear_post_string (s : String) : clear_post (.string s) := by
  intro h v f hl _
  obtain ⟨p, hv, hr, rfl⟩ := (layout_string h v s f).1 hl
  subst hv
  refine ⟨1, h.release p, fun fuel hfuel => ?_, length_release h p, ?_, ?_⟩
  · cases fuel with
    | zero => omega
    | succ k => simp [clear, hr]
  · intro a ha
    exact read_release_ne h p a (fun hp => ha (by simp [hp]))
  · intro a ha
    simp only [List.mem_singleton] at ha
    subst ha
    exact read_release_same h a

theorem clear_post_array (a : List json.value) (ih : destroy_each_post a) :
    clear_post (.array a) := by
  intro h v f hl hnd
  obtain ⟨p, elems, fe, hv, hr, hle, rfl⟩ := (layout_array h v a f).1 hl
  subst hv
  obtain ⟨hp, hnd1⟩ := List.nodup_cons.1 hnd
  obtain ⟨n, h1, hc, hlen, hfr, hrel⟩ := ih h elems fe hle hnd1
  refine ⟨n + 1, h1.release p, fun fuel hfuel => ?_, ?_, ?_, ?_⟩
  · cases fuel with
    | zero => omega
    | succ k => simp only [clear, hr, hc k (by omega)]
  · rw [length_release, hlen]
  · intro x hx
    rw [read_release_ne h1 p x (fun hxp => hx (by simp [hxp]))]
    exact hfr x (fun hm => hx (List.mem_cons_of_mem _ hm))
  · intro x hx
    rcases List.mem_cons.1 hx with hx | hx
    · subst hx
      exact read_release_same h1 x
    · rw [read_release_ne h1 p x (fun hxp => hp (hxp ▸ hx))]
      exact hrel x hx

theorem clear_post_object (o : List (String × json.value))
    (ih : destroy_each_post (o.map Prod.snd)) : clear_post (.object o) := by
  intro h v f hl hnd
  obtain ⟨p, entries, fe, hv, hr, _, hle, rfl⟩ := (layout_object h v o f).1 hl
  subst hv
  obtain ⟨hp, hnd1⟩ := List.nodup_cons.1 hnd
  obtain ⟨n, h1, hc, hlen, hfr, hrel⟩ := ih h (entries.map Prod.snd) fe hle hnd1
  refine ⟨n + 1, h1.release p, fun fuel hfuel => ?_, ?_, ?_, ?_⟩
  · cases fuel with
    | zero => omega
    | succ k => simp only [clear, hr, hc k (by omega)]
  · rw [length_release, hlen]
  · intro x hx
    rw [read_release_ne h1 p x (fun hxp => hx (by simp [hxp]))]
    exact hfr x (fun hm => hx (List.mem_cons_of_mem _ hm))
  · intro x hx
    rcases List.mem_cons.1 hx with hx | hx
    · subst hx
      exact read_release_same h1 x
    · rw [read_release_ne h1 p x (fun hxp => hp (hxp ▸ hx))]
      exact hrel x hx

theorem destroy_each_post_nil : destroy_each_post [] := by
  intro h vs f hl _
  cases vs with
  | nil =>
    simp only [layout_each, Option.some.injEq] at hl
    subst hl
    exact ⟨0, h, fun _ _ => rfl, rfl, fun _ _ => rfl, by simp⟩
  | cons x xs => simp [layout_each] at hl

theorem destroy_each_post_cons (t : json.value) (ts : List json.value) (iht : clear_post t)
    (ihts : destroy_each_post ts) : destroy_each_post (t :: ts) := by
  intro h vs f hl hnd
  cases vs with
  | nil => simp [layout_each] at hl
  | cons x xs =>
    obtain ⟨f1, f2, hl1, hl2, rfl⟩ := layout_each_cons h x xs t ts f hl
    obtain ⟨hnd1, hnd2, hdis⟩ := List.nodup_append.1 hnd
    obtain ⟨n1, h1, hc1, hlen1, hfr1, hrel1⟩ := iht h x f1 hl1 hnd1
    have hl3 : layout_each h1 xs ts = some f2 :=
      layout_each_frame h h1 xs ts f2 hl2 (fun a ha => hfr1 a (fun ha1 => hdis ha1 ha))
    obtain ⟨n2, h2, hc2, hlen2, hfr2, hrel2⟩ := ihts h1 xs f2 hl3 hnd2
    refine ⟨max n1 n2, h2, fun fuel hfuel => ?_, by rw [hlen2, hlen1], ?_, ?_⟩
    · simp only [destroy_each, hc1 fuel (le_trans (le_max_left _ _) hfuel), Option.map_some',
        hc2 fuel (le_trans (le_max_right _ _) hfuel)]
    · intro a ha
      rw [hfr2 a (fun hm => ha (List.mem_append_right _ hm)),
        hfr1 a (fun hm => ha (List.mem_append_left _ hm))]
    · intro a ha
      rcases List.mem_append.1 ha with ha | ha
      · rw [hfr2 a (fun hm => hdis ha hm)]
        exact hrel1 a ha
      · exact hrel2 a ha

theorem clear_post_all (t : json.value) : clear_post t :=
  value_induction_aux clear_post destroy_each_post clear_post_null clear_post_boolean
    clear_post_number clear_post_string clear_post_array clear_post_object
    destroy_each_post_nil destroy_each_post_cons t

theorem write_heap (s : state) (i : Nat) (v : value) : (s.write i v).heap = s.heap := rfl

theorem write_same (s : state) (i : Nat) (v : value) : (s.write i v).objects i = v := by
  simp [state.write]

theorem write_other (s : state) (i j : Nat) (v : value) (h : j ≠ i) :
    (s.write i v).objects j = s.objects j := by
  simp [state.write, h]

theorem clear_object_post (s : state) (b : Nat) (tb : json.value) (fb : List Nat)
    (hb : layout s.heap (s.objects b) tb = some fb) (hnd : fb.Nodup) :
    ∃ n s1, (∀ fuel, n ≤ fuel → clear_object fuel s b = some s1) ∧
      s1.objects b = ⟨(s.objects b).storage, type.null⟩ ∧
      (∀ i, i ≠ b → s1.objects i = s.objects i) ∧
      s1.heap.length = s.heap.length ∧
      (∀ p, p ∉ fb → s1.heap.read p = s.heap.read p) ∧
      (∀ p ∈ fb, s1.heap.read p = none) := by
  obtain ⟨n, h1, hc, hlen, hfr, hrel⟩ := clear_post_all tb s.heap (s.objects b) fb hb hnd
  refine ⟨n, state.write ⟨h1, s.objects⟩ b ⟨(s.objects b).storage, type.null⟩,
    fun fuel hfuel => ?_, write_same _ _ _, fun i hi => write_other _ _ _ _ hi, hlen, hfr, hrel⟩
  simp only [clear_object, hc fuel hfuel]

theorem copy_construct_post (s : state) (a b : Nat) (ta : json.value) (fa : List Nat)
    (ha : layout s.heap (s.objects a) ta = some fa) :
    ∃ n s1 f1 ext, (∀ fuel, n ≤ fuel → copy_construct fuel s b a = some s1) ∧
      (∀ i, i ≠ b → s1.objects i = s.objects i) ∧
      s1.heap = s.heap ++ ext ∧
      layout s1.heap (s1.objects b) ta = some f1 ∧ f1.Nodup ∧
      (∀ p ∈ f1, s.heap.length ≤ p) ∧
      (s1.objects b).storage_type = (s.objects a).storage_type := by
  obtain ⟨n, ext, v1, f1, hc, hl, hnd, hge, hty⟩ :=
    copy_post_all ta s.heap (s.objects a) fa (s.objects b) ha
  refine ⟨n, state.write ⟨s.heap ++ ext, s.objects⟩ b v1, f1, ext, fun fuel hfuel => ?_,
    fun i hi => write_other _ _ _ _ hi, rfl, ?_, hnd, hge, ?_⟩
  · simp only [copy_construct, hc fuel hfuel]
  · rw [write_same]
    exact hl
  · rw [write_same]
    exact hty

theorem move_members_post (s : state) (a b : Nat) (ta : json.value) (fa : List Nat)
    (hab : a ≠ b) (ha : layout s.heap (s.objects a) ta = some fa) :
    ∃ s1, move_members s b a = some s1 ∧ s1.heap = s.heap ∧
      (∀ i, i ≠ a → i ≠ b → s1.objects i = s.objects i) ∧
      layout s1.heap (s1.objects b) ta = some fa ∧
      (s1.objects a).storage_type = type.null := by
  have hba : b ≠ a := Ne.symm hab
  cases ta with
  | null =>
    obtain ⟨hv, rfl⟩ := (layout_null _ _ _).1 ha
    simp only [move_members, hv]
    refine ⟨_, rfl, rfl, ?_, ?_, ?_⟩
    · intro i hia hib
      simp [state.set_storage_type, state.write, hia, hib]
    · refine (layout_null _ _ _).2 ⟨?_, rfl⟩
      simp [state.set_storage_type, state.write, hba, hv]
    · simp [state.set_storage_type, state.write]
  | boolean x =>
    obtain ⟨hv, rfl⟩ := (layout_boolean _ _ _ _).1 ha
    simp only [move_members, hv]
    refine ⟨_, rfl, rfl, ?_, ?_, ?_⟩
    · intro i hia hib
      simp [state.set_storage_type, state.set_storage, state.write, hia, hib]
    · refine (layout_boolean _ _ _ _).2 ⟨?_, rfl⟩
      simp [state.set_storage_type, state.set_storage, state.write, hba, hab, hv]
    · simp [state.set_storage_type, state.write]
  | number x =>
    obtain ⟨hv, rfl⟩ := (layout_number _ _ _ _).1 ha
    simp only [move_members, hv]
    refine ⟨_, rfl, rfl, ?_, ?_, ?_⟩
    · intro i hia hib
      simp [state.set_storage_type, state.set_storage, state.write, hia, hib]
    · refine (layout_number _ _ _ _).2 ⟨?_, rfl⟩
      simp [state.set_storage_type, state.set_storage, state.write, hba, hab, hv]
    · simp [state.set_storage_type, state.write]
  | string x =>
    obtain ⟨p, hv, hr, rfl⟩ := (layout_string _ _ _ _).1 ha
    simp only [move_members, hv]
    refine ⟨_, rfl, rfl, ?_, ?_, ?_⟩
    · intro i hia hib
      simp [state.set_storage_type, state.set_storage, state.write, hia, hib]
    · refine (layout_string _ _ _ _).2 ⟨p, ?_, hr, rfl⟩
      simp [state.set_storage_type, state.set_storage, state.write, hba, hab, hv]
    · simp [state.set_storage_type, state.write]
  | array x =>
    obtain ⟨p, elems, fe, hv, hr, hle, rfl⟩ := (layout_array _ _ _ _).1 ha
    simp only [move_members, hv]
    refine ⟨_, rfl, rfl, ?_, ?_, ?_⟩
    · intro i hia hib
      simp [state.set_storage_type, state.set_storage, state.write, hia, hib]
    · refine (layout_array _ _ _ _).2 ⟨p, elems, fe, ?_, hr, hle, rfl⟩
      simp [state.set_storage_type, state.set_storage, state.write, hba, hab, hv]
    · simp [state.set_storage_type, state.write]
  | object x =>
    obtain ⟨p, entries, fe, hv, hr, hk, hle, rfl⟩ := (layout_object _ _ _ _).1 ha
    simp only [move_members, hv]
    refine ⟨_, rfl, rfl, ?_, ?_, ?_⟩
    · intro i hia hib
      simp [state.set_storage_type, state.set_storage, state.write, hia, hib]
    · refine (layout_object _ _ _ _).2 ⟨p, entries, fe, ?_, hr, hk, hle, rfl⟩
      simp [state.set_storage_type, state.set_storage, state.write, hba, hab, hv]
    · simp [state.set_storage_type, state.write]

theorem layout_type (h : heap) (v : value) (t : json.value) (f : List Nat)
    (hl : layout h v t = some f) : v.storage_type = t.storage_type := by
  cases t with
  | null => exact ((layout_null _ _ _).1 hl).1
  | boolean b => obtain ⟨hv, _⟩ := (layout_boolean _ _ _ _).1 hl; rw [hv]; rfl
  | number d => obtain ⟨hv, _⟩ := (layout_number _ _ _ _).1 hl; rw [hv]; rfl
  | string s => obtain ⟨p, hv, _⟩ := (layout_string _ _ _ _).1 hl; rw [hv]; rfl
  | array a => obtain ⟨p, e, fe, hv, _⟩ := (layout_array _ _ _ _).1 hl; rw [hv]; rfl
  | object o => obtain ⟨p, e, fe, hv, _⟩ := (layout_object _ _ _ _).1 hl; rw [hv]; rfl

theorem eq_of_map_fst_snd {α β : Type} : ∀ (l1 l2 : List (α × β)),
    l1.map Prod.fst = l2.map Prod.fst → l1.map Prod.snd = l2.map Prod.snd → l1 = l2
  | [], [], _, _ => rfl
  | [], _ :: _, h, _ => by simp at h
  | _ :: _, [], h, _ => by simp at h
  | (a1, b1) :: r1, (a2, b2) :: r2, h1, h2 => by
    simp only [List.map, List.cons.injEq] at h1 h2
    rw [h1.1, h2.1, eq_of_map_fst_snd r1 r2 h1.2 h2.2]

theorem layout_unique_both (t : json.value) :
    ∀ (h : heap) (v : value) (f : List Nat) (t1 : json.value) (f1 : List Nat),
      layout h v t = some f → layout h v t1 = some f1 → t = t1 := by
  refine value_induction_aux
    (fun t => ∀ (h : heap) (v : value) (f : List Nat) (t1 : json.value) (f1 : List Nat),
      layout h v t = some f → layout h v t1 = some f1 → t = t1)
    (fun ts => ∀ (h : heap) (vs : List value) (f : List Nat) (ts1 : List json.value)
      (f1 : List Nat), layout_each h vs ts = some f → layout_each h vs ts1 = some f1 → ts = ts1)
    ?_ ?_ ?_ ?_ ?_ ?_ ?_ ?_ t
  · intro h v f t1 f1 hl hl1
    have hty := (layout_type h v _ f hl).symm.trans (layout_type h v t1 f1 hl1)
    cases t1 <;> first | rfl | cases hty
  · intro b h v f t1 f1 hl hl1
    have hty := (layout_type h v _ f hl).symm.trans (layout_type h v t1 f1 hl1)
    cases t1 <;> cases hty
    obtain ⟨hv, _⟩ := (layout_boolean _ _ _ _).1 hl
    obtain ⟨hv1, _⟩ := (layout_boolean _ _ _ _).1 hl1
    rw [hv] at hv1
    cases hv1
    rfl
  · intro d h v f t1 f1 hl hl1
    have hty := (layout_type h v _ f hl).symm.trans (layout_type h v t1 f1 hl1)
    cases t1 <;> cases hty
    obtain ⟨hv, _⟩ := (layout_number _ _ _ _).1 hl
    obtain ⟨hv1, _⟩ := (layout_number _ _ _ _).1 hl1
    rw [hv] at hv1
    cases hv1
    rfl
  · intro s h v f t1 f1 hl hl1
    have hty := (layout_type h v _ f hl).symm.trans (layout_type h v t1 f1 hl1)
    cases t1 <;> cases hty
    obtain ⟨p, hv, hr, _⟩ := (layout_string _ _ _ _).1 hl
    obtain ⟨p1, hv1, hr1, _⟩ := (layout_string _ _ _ _).1 hl1
    rw [hv] at hv1
    cases hv1
    rw [hr] at hr1
    cases hr1
    rfl
  · intro a ih h v f t1 f1 hl hl1
    have hty := (layout_type h v _ f hl).symm.trans (layout_type h v t1 f1 hl1)
    cases t1 <;> cases hty
    obtain ⟨p, e, fe, hv, hr, hle, _⟩ := (layout_array _ _ _ _).1 hl
    obtain ⟨p1, e1, fe1, hv1, hr1, hle1, _⟩ := (layout_array _ _ _ _).1 hl1
    rw [hv] at hv1
    cases hv1
    rw [hr] at hr1
    cases hr1
    rw [ih h e fe _ fe1 hle hle1]
  · intro o ih h v f t1 f1 hl hl1
    have hty := (layout_type h v _ f hl).symm.trans (layout_type h v t1 f1 hl1)
    cases t1 <;> cases hty
    obtain ⟨p, e, fe, hv, hr, hk, hle, _⟩ := (layout_object _ _ _ _).1 hl
    obtain ⟨p1, e1, fe1, hv1, hr1, hk1, hle1, _⟩ := (layout_object _ _ _ _).1 hl1
    rw [hv] at hv1
    cases hv1
    rw [hr] at hr1
    cases hr1
    rw [eq_of_map_fst_snd _ _ (hk.symm.trans hk1) (ih h _ fe _ fe1 hle hle1)]
  · intro h vs f ts1 f1 hl hl1
    cases vs with
    | nil =>
      cases ts1 with
      | nil => rfl
      | cons t1 ts1 => simp [layout_each] at hl1
    | cons x xs => simp [layout_each] at hl
  · intro t ts iht ihts h vs f ts1 f1 hl hl1
    cases vs with
    | nil => simp [layout_each] at hl
    | cons x xs =>
      cases ts1 with
      | nil => simp [layout_each] at hl1
      | cons t1 ts1 =>
        obtain ⟨g1, g2, h1, h2, _⟩ := layout_each_cons h x xs t ts f hl
        obtain ⟨g3, g4, h3, h4, _⟩ := layout_each_cons h x xs t1 ts1 f1 hl1
        rw [iht h x g1 t1 g3 h1 h3, ihts h xs g2 ts1 g4 h2 h4]

theorem holds_unique (h : heap) (v : value) (t t1 : json.value) (h1 : holds h v t)
    (h2 : holds h v t1) : t = t1 := by
  unfold holds at h1 h2
  obtain ⟨f, hf⟩ := Option.isSome_iff_exists.1 h1
  obtain ⟨f1, hf1⟩ := Option.isSome_iff_exists.1 h2
  exact layout_unique_both t h v f t1 f1 hf hf1

theorem holds_of_layout (h : heap) (v : value) (t : json.value) (f : List Nat)
    (hl : layout h v t = some f) : holds h v t := by
  unfold holds
  rw [hl]
  rfl

theorem copy_assign_post (s : state) (a b : Nat) (ta tb : json.value) (fa fb : List Nat)
    (hab : a ≠ b) (ha : layout s.heap (s.objects a) ta = some fa)
    (hb : layout s.heap (s.objects b) tb = some fb) (hnd : fb.Nodup)
    (hdis : ∀ p ∈ fa, p ∉ fb) :
    ∃ n s2 f2, (∀ fuel, n ≤ fuel → copy_assign fuel s b a = some s2) ∧
      (∀ i, i ≠ b → s2.objects i = s.objects i) ∧
      layout s2.heap (s2.objects b) ta = some f2 ∧ f2.Nodup ∧
      (∀ p ∈ f2, s.heap.length ≤ p) ∧
      (s2.objects b).storage_type = (s.objects a).storage_type ∧
      (∀ v t f, layout s.heap v t = some f → (∀ p ∈ f, p ∉ fb) →
        layout s2.heap v t = some f) := by
  obtain ⟨n1, s1, hc1, _, hoth1, hlen1, hfr1, _⟩ := clear_object_post s b tb fb hb hnd
  have hframe1 : ∀ v t f, layout s.heap v t = some f → (∀ p ∈ f, p ∉ fb) →
      layout s1.heap v t = some f :=
    fun v t f hl hd => layout_frame s.heap s1.heap v t f hl (fun p hp => hfr1 p (hd p hp))
  have ha1 : layout s1.heap (s1.objects a) ta = some fa := by
    rw [hoth1 a hab]
    exact hframe1 _ _ _ ha hdis
  obtain ⟨n2, s2, f2, ext, hc2, hoth2, hheap2, hl2, hnd2, hge2, hty2⟩ :=
    copy_construct_post s1 a b ta fa ha1
  refine ⟨max n1 n2, s2, f2, fun fuel hfuel => ?_, fun i hi => ?_, hl2, hnd2, ?_, ?_, ?_⟩
  · simp only [copy_assign, hc1 fuel (le_trans (le_max_left _ _) hfuel),
      hc2 fuel (le_trans (le_max_right _ _) hfuel)]
  · rw [hoth2 i hi, hoth1 i hi]
  · intro p hp
    rw [← hlen1]
    exact hge2 p hp
  · rw [hty2, hoth1 a hab]
  · intro v t f hl hd
    rw [hheap2]
    exact layout_append _ _ _ _ _ (hframe1 v t f hl hd)

theorem move_assign_post (s : state) (a b : Nat) (ta tb : json.value) (fa fb : List Nat)
    (hab : a ≠ b) (ha : layout s.heap (s.objects a) ta = some fa)
    (hb : layout s.heap (s.objects b) tb = some fb) (hnd : fb.Nodup)
    (hdis : ∀ p ∈ fa, p ∉ fb) :
    ∃ n s2, (∀ fuel, n ≤ fuel → move_assign fuel s b a = some s2) ∧
      (∀ i, i ≠ a → i ≠ b → s2.objects i = s.objects i) ∧
      layout s2.heap (s2.objects b) ta = some fa ∧
      (s2.objects a).storage_type = type.null ∧
      (∀ p ∈ fb, s2.heap.read p = none) ∧
      (∀ v t f, layout s.heap v t = some f → (∀ p ∈ f, p ∉ fb) →
        layout s2.heap v t = some f) := by
  obtain ⟨n1, s1, hc1, _, hoth1, _, hfr1, hrel1⟩ := clear_object_post s b tb fb hb hnd
  have hframe1 : ∀ v t f, layout s.heap v t = some f → (∀ p ∈ f, p ∉ fb) →
      layout s1.heap v t = some f :=
    fun v t f hl hd => layout_frame s.heap s1.heap v t f hl (fun p hp => hfr1 p (hd p hp))
  have ha1 : layout s1.heap (s1.objects a) ta = some fa := by
    rw [hoth1 a hab]
    exact hframe1 _ _ _ ha hdis
  obtain ⟨s2, hm, hheap2, hoth2, hl2, hty2⟩ := move_members_post s1 a b ta fa hab ha1
  refine ⟨n1, s2, fun fuel hfuel => ?_, fun i hia hib => ?_, hl2, hty2, ?_, ?_⟩
  · simp only [move_assign, hc1 fuel hfuel, hm]
  · rw [hoth2 i hia hib, hoth1 i hib]
  · intro p hp
    rw [hheap2]
    exact hrel1 p hp
  · intro v t f hl hd
    rw [hheap2]
    exact hframe1 v t f hl hd

/-- C8: for every object `a` holding a content `ta` and every other object
`b`, whatever `b` holds (`b` owning its allocations, none of which `a` uses),
copy construction of `b` from `a` and the copy
assignment `b = a` both succeed (given enough fuel); afterwards `b` has the
discriminant of `a` and holds the same content `ta` as `a`, through nested
arrays and objects, and `a` is unchanged. -/
theorem copy_gives_equal_content (s : state) (a b : Nat) (ta tb : json.value)
    (fa fb : List Nat) (hab : a ≠ b) (ha : layout s.heap (s.objects a) ta = some fa)
    (hb : layout s.heap (s.objects b) tb = some fb) (hnd : fb.Nodup)
    (hdis : ∀ p ∈ fa, p ∉ fb) :
    ∃ n s1 s2,
      (∀ fuel, n ≤ fuel → copy_construct fuel s b a = some s1) ∧
      (∀ fuel, n ≤ fuel → copy_assign fuel s b a = some s2) ∧
      ((s1.objects b).storage_type = (s.objects a).storage_type ∧
        (∀ t, holds s1.heap (s1.objects b) t ↔ holds s1.heap (s1.objects a) t) ∧
        s1.objects a = s.objects a ∧ layout s1.heap (s1.objects a) ta = some fa) ∧
      ((s2.objects b).storage_type = (s.objects a).storage_type ∧
        (∀ t, holds s2.heap (s2.objects b) t ↔ holds s2.heap (s2.objects a) t) ∧
        s2.objects a = s.objects a ∧ layout s2.heap (s2.objects a) ta = some fa) := by
  obtain ⟨n1, s1, f1, ext, hc1, hoth1, hheap1, hl1, _, _, hty1⟩ :=
    copy_construct_post s a b ta fa ha
  obtain ⟨n2, s2, f2, hc2, hoth2, hl2, _, _, hty2, hfr2⟩ :=
    copy_assign_post s a b ta tb fa fb hab ha hb hnd hdis
  have ha1 : layout s1.heap (s1.objects a) ta = some fa := by
    rw [hoth1 a hab, hheap1]
    exact layout_append _ _ _ _ _ ha
  have ha2 : layout s2.heap (s2.objects a) ta = some fa := by
    rw [hoth2 a hab]
    exact hfr2 _ _ _ ha hdis
  have both : ∀ (h : heap) (x y : value) (fx fy : List Nat), layout h x ta = some fx →
      layout h y ta = some fy → ∀ t, holds h x t ↔ holds h y t := by
    intro h x y fx fy hx hy t
    constructor
    · intro ht
      rw [holds_unique h x t ta ht (holds_of_layout h x ta fx hx)]
      exact holds_of_layout h y ta fy hy
    · intro ht
      rw [holds_unique h y t ta ht (holds_of_layout h y ta fy hy)]
      exact holds_of_layout h x ta fx hx
  exact ⟨max n1 n2, s1, s2, fun fuel hf => hc1 fuel (le_trans (le_max_left _ _) hf),
    fun fuel hf => hc2 fuel (le_trans (le_max_right _ _) hf),
    ⟨hty1, both _ _ _ _ _ hl1 ha1, hoth1 a hab, ha1⟩,
    ⟨hty2, both _ _ _ _ _ hl2 ha2, hoth2 a hab, ha2⟩⟩

/-- C7: for every object `a` holding a content `ta` and every other object
`b`, whatever `b` holds (`b` owning its allocations, none of which `a` uses),
move construction of `b` from `a` succeeds and the
move assignment `b = std::move(a)` succeeds (given enough fuel); afterwards
the discriminant of `a` is Null, so that `a.is<json::null>()` holds and `a`
holds the Null content only, and `b` holds the content `ta` that `a` held, in
the allocations `a` had. -/
theorem move_empties_the_source (s : state) (a b : Nat) (ta tb : json.value)
    (fa fb : List Nat) (hab : a ≠ b) (ha : layout s.heap (s.objects a) ta = some fa)
    (hb : layout s.heap (s.objects b) tb = some fb) (hnd : fb.Nodup)
    (hdis : ∀ p ∈ fa, p ∉ fb) :
    ∃ n s1 s2,
      move_construct s b a = some s1 ∧
      (∀ fuel, n ≤ fuel → move_assign fuel s b a = some s2) ∧
      ((s1.objects a).storage_type = type.null ∧
        (∀ t, holds s1.heap (s1.objects a) t ↔ t = json.value.null) ∧
        layout s1.heap (s1.objects b) ta = some fa) ∧
      ((s2.objects a).storage_type = type.null ∧
        (∀ t, holds s2.heap (s2.objects a) t ↔ t = json.value.null) ∧
        layout s2.heap (s2.objects b) ta = some fa) := by
  obtain ⟨s1, hm1, _, _, hl1, hty1⟩ := move_members_post s a b ta fa hab ha
  obtain ⟨n2, s2, hc2, _, hl2, hty2, _, _⟩ :=
    move_assign_post s a b ta tb fa fb hab ha hb hnd hdis
  have only_null : ∀ (h : heap) (x : value), x.storage_type = type.null →
      ∀ t, holds h x t ↔ t = json.value.null := by
    intro h x hx t
    have hn : holds h x .null := holds_of_layout h x .null [] ((layout_null h x []).2 ⟨hx, rfl⟩)
    constructor
    · intro ht
      exact holds_unique h x t .null ht hn
    · intro ht
      rw [ht]
      exact hn
  exact ⟨n2, s1, s2, hm1, hc2, ⟨hty1, only_null _ _ hty1, hl1⟩,
    ⟨hty2, only_null _ _ hty2, hl2⟩⟩

theorem copy_gives_equal_content_witness :
    (0 : Nat) ≠ 1 ∧
      layout sample.heap (sample.objects 0) (.array [.boolean true, .string "x"]) =
        some [1, 0] ∧
      layout sample.heap (sample.objects 1) (.string "y") = some [2] ∧
      [2].Nodup ∧ (∀ p ∈ [1, 0], p ∉ [2]) ∧
      ∃ n s1 s2,
        (∀ fuel, n ≤ fuel → copy_construct fuel sample 1 0 = some s1) ∧
        (∀ fuel, n ≤ fuel → copy_assign fuel sample 1 0 = some s2) ∧
        ((s1.objects 1).storage_type = (sample.objects 0).storage_type ∧
          (∀ t, holds s1.heap (s1.objects 1) t ↔ holds s1.heap (s1.objects 0) t) ∧
          s1.objects 0 = sample.objects 0 ∧
          layout s1.heap (s1.objects 0) (.array [.boolean true, .string "x"]) = some [1, 0]) ∧
        ((s2.objects 1).storage_type = (sample.objects 0).storage_type ∧
          (∀ t, holds s2.heap (s2.objects 1) t ↔ holds s2.heap (s2.objects 0) t) ∧
          s2.objects 0 = sample.objects 0 ∧
          layout s2.heap (s2.objects 0) (.array [.boolean true, .string "x"]) = some [1, 0]) :=
  ⟨by decide, rfl, rfl, by decide, by decide,
    copy_gives_equal_content sample 0 1 _ (.string "y") _ [2] (by decide) rfl rfl (by decide)
      (by decide)⟩

theorem move_empties_the_source_witness :
    (0 : Nat) ≠ 1 ∧
      layout sample.heap (sample.objects 0) (.array [.boolean true, .string "x"]) =
        some [1, 0] ∧
      layout sample.heap (sample.objects 1) (.string "y") = some [2] ∧
      [2].Nodup ∧ (∀ p ∈ [1, 0], p ∉ [2]) ∧
      ∃ n s1 s2,
        move_construct sample 1 0 = some s1 ∧
        (∀ fuel, n ≤ fuel → move_assign fuel sample 1 0 = some s2) ∧
        ((s1.objects 0).storage_type = type.null ∧
          (∀ t, holds s1.heap (s1.objects 0) t ↔ t = json.value.null) ∧
          layout s1.heap (s1.objects 1) (.array [.boolean true, .string "x"]) = some [1, 0]) ∧
        ((s2.objects 0).storage_type = type.null ∧
          (∀ t, holds s2.heap (s2.objects 0) t ↔ t = json.value.null) ∧
          layout s2.heap (s2.objects 1) (.array [.boolean true, .string "x"]) = some [1, 0]) :=
  ⟨by decide, rfl, rfl, by decide, by decide,
    move_empties_the_source sample 0 1 _ (.string "y") _ [2] (by decide) rfl rfl (by decide)
      (by decide)⟩

/-- C9: let `a`, `b`, `c` be three objects, `a` holding a content `ta` (of
any kind, in particular an Array, String or Object), `b` and `c` owning their
allocations and no allocation being used by two of the three.  The copy
assignment
`b = a` succeeds, and each later mutation of `b` (`b.clear()`, the copy
assignment `b = c`, the move assignment `b = std::move(c)`, moving out of `b`
by the move assignment `c = std::move(b)` or by move construction from `b`)
succeeds and leaves `a` as it was: the same object representation, holding
the same content `ta` in the same allocations. -/
theorem copy_is_independent (s : state) (a b c : Nat) (ta tb tc : json.value)
    (fa fb fc : List Nat) (hab : a ≠ b) (hac : a ≠ c) (hbc : b ≠ c)
    (ha : layout s.heap (s.objects a) ta = some fa)
    (hb : layout s.heap (s.objects b) tb = some fb)
    (hc : layout s.heap (s.objects c) tc = some fc)
    (hndb : fb.Nodup) (hndc : fc.Nodup)
    (hdab : ∀ p ∈ fa, p ∉ fb) (hdac : ∀ p ∈ fa, p ∉ fc) (hdcb : ∀ p ∈ fc, p ∉ fb) :
    ∃ n s1 s2 s3 s4 s5 s6,
      (∀ fuel, n ≤ fuel → copy_assign fuel s b a = some s1) ∧
      (∀ fuel, n ≤ fuel → clear_object fuel s1 b = some s2) ∧
      (∀ fuel, n ≤ fuel → copy_assign fuel s1 b c = some s3) ∧
      (∀ fuel, n ≤ fuel → move_assign fuel s1 b c = some s4) ∧
      (∀ fuel, n ≤ fuel → move_assign fuel s1 c b = some s5) ∧
      move_construct s1 c b = some s6 ∧
      (s2.objects a = s.objects a ∧ layout s2.heap (s2.objects a) ta = some fa) ∧
      (s3.objects a = s.objects a ∧ layout s3.heap (s3.objects a) ta = some fa) ∧
      (s4.objects a = s.objects a ∧ layout s4.heap (s4.objects a) ta = some fa) ∧
      (s5.objects a = s.objects a ∧ layout s5.heap (s5.objects a) ta = some fa) ∧
      (s6.objects a = s.objects a ∧ layout s6.heap (s6.objects a) ta = some fa) := by
  obtain ⟨n1, s1, f1, hc1, hoth1, hl1, hnd1, hge1, _, hfr1⟩ :=
    copy_assign_post s a b ta tb fa fb hab ha hb hndb hdab
  have hoa : s1.objects a = s.objects a := hoth1 a hab
  have hoc : s1.objects c = s.objects c := hoth1 c (Ne.symm hbc)
  have ha1 : layout s1.heap (s1.objects a) ta = some fa := by
    rw [hoa]
    exact hfr1 _ _ _ ha hdab
  have hc1l : layout s1.heap (s1.objects c) tc = some fc := by
    rw [hoc]
    exact hfr1 _ _ _ hc hdcb
  have hda1 : ∀ p ∈ fa, p ∉ f1 := fun p hp hp1 =>
    absurd (layout_lt _ _ _ _ ha p hp) (Nat.not_lt.2 (hge1 p hp1))
  have hdc1 : ∀ p ∈ fc, p ∉ f1 := fun p hp hp1 =>
    absurd (layout_lt _ _ _ _ hc p hp) (Nat.not_lt.2 (hge1 p hp1))
  have hd1c : ∀ p ∈ f1, p ∉ fc := fun p hp1 hp => hdc1 p hp hp1
  obtain ⟨n2, s2, hc2, _, hoth2, _, hfr2, _⟩ := clear_object_post s1 b ta f1 hl1 hnd1
  obtain ⟨n3, s3, f3, hc3, hoth3, _, _, _, _, hfr3⟩ :=
    copy_assign_post s1 c b tc ta fc f1 (Ne.symm hbc) hc1l hl1 hnd1 hdc1
  obtain ⟨n4, s4, hc4, hoth4, _, _, _, hfr4⟩ :=
    move_assign_post s1 c b tc ta fc f1 (Ne.symm hbc) hc1l hl1 hnd1 hdc1
  obtain ⟨n5, s5, hc5, hoth5, _, _, _, hfr5⟩ :=
    move_assign_post s1 b c ta tc f1 fc hbc hl1 hc1l hndc hd1c
  obtain ⟨s6, hm6, hheap6, hoth6, _, _⟩ := move_members_post s1 b c ta f1 hbc hl1
  refine ⟨max n1 (max n2 (max n3 (max n4 n5))), s1, s2, s3, s4, s5, s6,
    fun fuel hf => hc1 fuel (by omega), fun fuel hf => hc2 fuel (by omega),
    fun fuel hf => hc3 fuel (by omega), fun fuel hf => hc4 fuel (by omega),
    fun fuel hf => hc5 fuel (by omega), hm6, ⟨?_, ?_⟩, ⟨?_, ?_⟩, ⟨?_, ?_⟩, ⟨?_, ?_⟩, ⟨?_, ?_⟩⟩
  · rw [hoth2 a hab, hoa]
  · rw [hoth2 a hab]
    exact layout_frame _ _ _ _ _ ha1 (fun p hp => hfr2 p (hda1 p hp))
  · rw [hoth3 a hab, hoa]
  · rw [hoth3 a hab]
    exact hfr3 _ _ _ ha1 hda1
  · rw [hoth4 a hac hab, hoa]
  · rw [hoth4 a hac hab]
    exact hfr4 _ _ _ ha1 hda1
  · rw [hoth5 a hab hac, hoa]
  · rw [hoth5 a hab hac]
    exact hfr5 _ _ _ ha1 hdac
  · rw [hoth6 a hab hac, hoa]
  · rw [hoth6 a hab hac, hheap6]
    exact ha1

theorem copy_is_independent_witness :
    (0 : Nat) ≠ 1 ∧ (0 : Nat) ≠ 2 ∧ (1 : Nat) ≠ 2 ∧
      layout sample.heap (sample.objects 0) (.array [.boolean true, .string "x"]) =
        some [1, 0] ∧
      layout sample.heap (sample.objects 1) (.string "y") = some [2] ∧
      layout sample.heap (sample.objects 2) (.object [("k", .string "z")]) = some [4, 3] ∧
      [2].Nodup ∧ [4, 3].Nodup ∧ (∀ p ∈ [1, 0], p ∉ [2]) ∧ (∀ p ∈ [1, 0], p ∉ [4, 3]) ∧
      (∀ p ∈ [4, 3], p ∉ [2]) ∧
      ∃ n s1 s2 s3 s4 s5 s6,
        (∀ fuel, n ≤ fuel → copy_assign fuel sample 1 0 = some s1) ∧
        (∀ fuel, n ≤ fuel → clear_object fuel s1 1 = some s2) ∧
        (∀ fuel, n ≤ fuel → copy_assign fuel s1 1 2 = some s3) ∧
        (∀ fuel, n ≤ fuel → move_assign fuel s1 1 2 = some s4) ∧
        (∀ fuel, n ≤ fuel → move_assign fuel s1 2 1 = some s5) ∧
        move_construct s1 2 1 = some s6 ∧
        (s2.objects 0 = sample.objects 0 ∧
          layout s2.heap (s2.objects 0) (.array [.boolean true, .string "x"]) = some [1, 0]) ∧
        (s3.objects 0 = sample.objects 0 ∧
          layout s3.heap (s3.objects 0) (.array [.boolean true, .string "x"]) = some [1, 0]) ∧
        (s4.objects 0 = sample.objects 0 ∧
          layout s4.heap (s4.objects 0) (.array [.boolean true, .string "x"]) = some [1, 0]) ∧
        (s5.objects 0 = sample.objects 0 ∧
          layout s5.heap (s5.objects 0) (.array [.boolean true, .string "x"]) = some [1, 0]) ∧
        (s6.objects 0 = sample.objects 0 ∧
          layout s6.heap (s6.objects 0) (.array [.boolean true, .string "x"]) = some [1, 0]) :=
  ⟨by decide, by decide, by decide, rfl, rfl, rfl, by decide, by decide, by decide, by decide,
    by decide,
    copy_is_independent sample 0 1 2 _ (.string "y") (.object [("k", .string "z")]) _ [2]
      [4, 3] (by decide) (by decide) (by decide) rfl rfl rfl (by decide) (by decide)
      (by decide) (by decide) (by decide)⟩

end mem

/-! ### The kind predicates and the scalar constructors -/

/-- C11: for every value `v` and eligible element type `T'`,
`v.is<std::vector<T'>>()` holds exactly when `v` is an Array every element of
which satisfies `is<T'>()`, and `v.is<std::map<std::string, T'>>()` holds
exactly when `v` is an Object every mapped value of which satisfies
`is<T'>()`; an empty Array and an empty Object satisfy them for every `T'`. -/
theorem is_container_iff (t : jtype) (v : value) :
    (is (.std_vector t) v = true ↔
        v.storage_type = type.array ∧ ∀ e ∈ v.storage_arr, is t e = true) ∧
      (is (.std_map t) v = true ↔
        v.storage_type = type.object ∧ ∀ e ∈ v.storage_obj, is t e.2 = true) ∧
      (∀ a, is (.std_vector t) (value.array a) = true ↔ ∀ e ∈ a, is t e = true) ∧
      (∀ o, is (.std_map t) (value.object o) = true ↔ ∀ e ∈ o, is t e.2 = true) ∧
      is (.std_vector t) (value.array []) = true ∧
      is (.std_map t) (value.object []) = true := by
  have hv : ∀ w : value, is (.std_vector t) w = true ↔
      w.storage_type = type.array ∧ ∀ e ∈ w.storage_arr, is t e = true := by
    intro w
    simp only [is, is_impl]
    by_cases h : w.storage_type = type.array
    · simp [h, is_each_iff]
    · simp [h]
  have hm : ∀ w : value, is (.std_map t) w = true ↔
      w.storage_type = type.object ∧ ∀ e ∈ w.storage_obj, is t e.2 = true := by
    intro w
    simp only [is, is_impl]
    by_cases h : w.storage_type = type.object
    · simp [h, is_each_second_iff]
    · simp [h]
  refine ⟨hv v, hm v, fun a => ?_, fun o => ?_, rfl, rfl⟩
  · rw [hv]
    simp [value.storage_type, value.storage_arr]
  · rw [hm]
    simp [value.storage_type, value.storage_obj]

/-- C12: for every boolean `b`, `value(b)` has kind Boolean and
`value(b).as<bool>()` is `b`; for every string `s`, `value(s)` has kind String
and `value(s).as<std::string>()` is `s`; for every 64-bit float `d`,
`value(d)` has kind Number and `value(d).as<double>()` is `d`, the very
datum that was stored. -/
theorem scalar_round_trip (P : platform) (b : Bool) (s : String) (d : double) :
    ((value.of_bool b).storage_type = type.boolean ∧
        as P .bool (value.of_bool b) = Except.ok b) ∧
      ((value.of_string s).storage_type = type.string ∧
        as P .std_string (value.of_string s) = Except.ok s) ∧
      ((value.of_double d).storage_type = type.number ∧
        as P (.number .f64) (value.of_double d) = Except.ok d) :=
  ⟨⟨rfl, rfl⟩, ⟨rfl, rfl⟩, ⟨rfl, rfl⟩⟩

/-- C13: the value constructed from no argument or from the null marker has
the Null discriminant and satisfies `is<json::null>()`; and for every value
`v`, `v.is<json::null>()` holds exactly when the discriminant of `v` is
Null. -/
theorem null_iff_discriminant (v : value) :
    value.of_null.storage_type = type.null ∧ is .null value.of_null = true ∧
      (is .null v = true ↔ v.storage_type = type.null) := by
  refine ⟨rfl, rfl, ?_⟩
  simp [is, is_impl]

/-- C20: for every value `v` and eligible element type `T'`,
`v.is<std::vector<T'>>()` implies `v.is<json::array>()` and
`v.is<std::map<std::string, T'>>()` implies `v.is<json::object>()`;
`json::array` is `std::vector<json::value>`, and `v.is<json::array>()` is
decided by the discriminant alone, whatever the elements are. -/
theorem typed_checks_refine_untyped (t : jtype) (v : value) :
    (is (.std_vector t) v = true → is jtype.array v = true) ∧
      (is (.std_map t) v = true → is jtype.object v = true) ∧
      jtype.array = jtype.std_vector jtype.value ∧
      jtype.object = jtype.std_map jtype.value ∧
      is jtype.array v = (v.storage_type == type.array) ∧
      is jtype.object v = (v.storage_type == type.object) ∧
      (∀ a1 a2, is jtype.array (value.array a1) = is jtype.array (value.array a2)) := by
  refine ⟨?_, ?_, rfl, rfl, is_array_eq v, is_object_eq v, fun a1 a2 => ?_⟩
  · intro h
    rw [is_array_eq]
    simp only [is, is_impl] at h
    by_cases hty : v.storage_type = type.array
    · simp [hty]
    · simp [hty] at h
  · intro h
    rw [is_object_eq]
    simp only [is, is_impl] at h
    by_cases hty : v.storage_type = type.object
    · simp [hty]
    · simp [hty] at h
  · rw [is_array_eq, is_array_eq]
    rfl

theorem typed_checks_refine_untyped_witness :
    is (.std_vector .bool) (.array [.boolean true]) = true ∧
      is jtype.array (.array [.boolean true]) = true ∧
      is (.std_map .bool) (.object [("k", .boolean true)]) = true ∧
      is jtype.object (.object [("k", .boolean true)]) = true :=
  ⟨rfl, (typed_checks_refine_untyped .bool (.array [.boolean true])).1 rfl, rfl,
    (typed_checks_refine_untyped .bool (.object [("k", .boolean true)])).2.1 rfl⟩

/-- C16: for the value `v` constructed from the mapping
`{"a": 1.0, "b": [true, "x"]}`: `v.is<json::object>()` holds,
`v["a"].as<double>()` is `1.0`, `v["b"].is<json::array>()` holds,
`v["b"][0].as<bool>()` is `true`, `v["b"][1].as<std::string>()` is `"x"`, and
`v["c"].is<json::null>()` holds. -/
theorem concrete_scenario (P : platform) :
    is jtype.object
        (value.of_object [("a", value.of_double ⟨false, 1023, 0⟩),
          ("b", value.of_list [value.of_bool true, value.of_string "x"])]) = true ∧
      as P (.number .f64)
        (operator_key
          (value.of_object [("a", value.of_double ⟨false, 1023, 0⟩),
            ("b", value.of_list [value.of_bool true, value.of_string "x"])]) "a") =
        Except.ok (⟨false, 1023, 0⟩ : double) ∧
      is jtype.array
        (operator_key
          (value.of_object [("a", value.of_double ⟨false, 1023, 0⟩),
            ("b", value.of_list [value.of_bool true, value.of_string "x"])]) "b") = true ∧
      (∃ e0, operator_index P (.sint 32)
          (operator_key
            (value.of_object [("a", value.of_double ⟨false, 1023, 0⟩),
              ("b", value.of_list [value.of_bool true, value.of_string "x"])]) "b")
          (0 : Int) = some e0 ∧ as P .bool e0 = Except.ok true) ∧
      (∃ e1, operator_index P (.sint 32)
          (operator_key
            (value.of_object [("a", value.of_double ⟨false, 1023, 0⟩),
              ("b", value.of_list [value.of_bool true, value.of_string "x"])]) "b")
          (1 : Int) = some e1 ∧ as P .std_string e1 = Except.ok "x") ∧
      is .null
        (operator_key
          (value.of_object [("a", value.of_double ⟨false, 1023, 0⟩),
            ("b", value.of_list [value.of_bool true, value.of_string "x"])]) "c") = true :=
  ⟨rfl, rfl, rfl, ⟨value.boolean true, rfl, rfl⟩, ⟨value.string "x", rfl, rfl⟩, rfl⟩

theorem as_each_same (f : value → Except runtime_error value) (hf : ∀ x, f x = .ok x)
    (l : List value) : ∀ acc : List value, as_each f l acc = .ok (acc ++ l) := by
  induction l with
  | nil => intro acc; simp [as_each]
  | cons x rest ih =>
    intro acc
    simp only [as_each, hf x]
    rw [ih]
    simp

theorem as_each_second_same (f : value → Except runtime_error value) (hf : ∀ x, f x = .ok x)
    (l : List (String × value)) (hs : map_sorted l) :
    ∀ acc : List (String × value), (∀ a ∈ acc, ∀ e ∈ l, less a.1 e.1 = true) →
      as_each_second f l acc = .ok (acc ++ l) := by
  induction l with
  | nil => intro acc _; simp [as_each_second]
  | cons e rest ih =>
    intro acc hacc
    obtain ⟨k, x⟩ := e
    simp only [as_each_second, hf x]
    rw [map_assign_append acc k x (fun a ha => hacc a ha (k, x) (List.mem_cons_self _ _))]
    rw [ih hs.2]
    · simp
    · intro a ha e he
      rcases List.mem_append.1 ha with ha | ha
      · exact hacc a ha e (List.mem_cons_of_mem _ he)
      · simp only [List.mem_singleton] at ha
        subst ha
        exact hs.1 e he

theorem as_impl_value (P : platform) (x : value) : as_impl P .value x = .ok x := by
  simp [as_impl, value.copy_eq]

/-- C18: for every value `v`, `v.is<json::value>()` holds and
`v.as<json::value>()` returns a value equal to `v`; `as<json::array>()` on an
Array value returns its elements, in order, and `as<json::object>()` on an
Object value (the keys of its map being in strictly increasing order, as in
every `std::map`) returns its entries. -/
theorem value_type_identity (P : platform) (v : value) :
    is .value v = true ∧ as P .value v = Except.ok v ∧
      (∀ a, v = value.array a → as P jtype.array v = Except.ok a) ∧
      (∀ o, v = value.object o → map_sorted o → as P jtype.object v = Except.ok o) := by
  refine ⟨rfl, ?_, ?_, ?_⟩
  · simp [as, as_impl, value.copy_eq]
  · intro a hv
    subst hv
    have hi : is jtype.array (value.array a) = true := by
      rw [is_array_eq]
      rfl
    have hi2 : is (.std_vector .value) (value.array a) = true := hi
    simp only [as, jtype.array, as_impl, hi2, value.storage_arr, copy_array_eq]
    simpa using as_each_same (as_impl P .value) (as_impl_value P) a []
  · intro o hv hs
    subst hv
    have hi : is jtype.object (value.object o) = true := by
      rw [is_object_eq]
      rfl
    have hi2 : is (.std_map .value) (value.object o) = true := hi
    simp only [as, jtype.object, as_impl, hi2, value.storage_obj, copy_object_eq]
    simpa using as_each_second_same (as_impl P .value) (as_impl_value P) o hs []
      (fun a ha => absurd ha (List.not_mem_nil _))

theorem value_type_identity_witness :
    as ⟨fun _ _ => 0⟩ jtype.array (.array [.boolean true, .null]) =
        Except.ok [.boolean true, .null] ∧
      as ⟨fun _ _ => 0⟩ jtype.object (.object [("a", .null), ("b", .string "x")]) =
        Except.ok [("a", .null), ("b", .string "x")] := by
  refine ⟨(value_type_identity _ _).2.2.1 _ rfl, (value_type_identity _ _).2.2.2 _ rfl ?_⟩
  refine ⟨?_, ?_, trivial⟩
  · intro e he
    simp only [List.mem_singleton] at he
    subst he
    rfl
  · intro e he
    exact absurd he (List.not_mem_nil _)

/-! ### The type-eligibility predicate -/

theorem is_valid_iff_element (t : ctype) :
    is_valid_json_type t = true ↔ ∀ id, t.element ≠ ctype.other id := by
  induction t with
  | std_vector t ih => simpa [is_valid_json_type, ctype.element] using ih
  | std_map t ih => simpa [is_valid_json_type, ctype.element] using ih
  | other id => simp [is_valid_json_type, ctype.element]
  | _ => simp [is_valid_json_type, ctype.element]

theorem to_ctype_valid (t : jtype) : is_valid_json_type t.to_ctype = true := by
  induction t with
  | std_vector t ih => simpa [is_valid_json_type, jtype.to_ctype] using ih
  | std_map t ih => simpa [is_valid_json_type, jtype.to_ctype] using ih
  | _ => rfl

/-- C15: `is_valid_json_type` is true for `bool`, the value type, the null
marker, every stringy type and every numeric type; for a vector of `T'` and
for a string-keyed map to `T'` it is true exactly when it is true for `T'`;
it is false for every other type.  Hence a type is eligible exactly when its
innermost element type is none of the other types, and every type `is` and
`as` are embedded for is eligible. -/
theorem is_valid_json_type_spec (t : ctype) (id : Nat) (n : numeric) (j : jtype) :
    is_valid_json_type .bool = true ∧ is_valid_json_type .value = true ∧
      is_valid_json_type .null = true ∧ is_valid_json_type (.stringy id) = true ∧
      is_valid_json_type (.number n) = true ∧
      (is_valid_json_type (.std_vector t) = true ↔ is_valid_json_type t = true) ∧
      (is_valid_json_type (.std_map t) = true ↔ is_valid_json_type t = true) ∧
      is_valid_json_type (.other id) = false ∧
      (is_valid_json_type t = true ↔ ∀ k, t.element ≠ ctype.other k) ∧
      is_valid_json_type j.to_ctype = true :=
  ⟨rfl, rfl, rfl, rfl, rfl, Iff.rfl, Iff.rfl, rfl, is_valid_iff_element t, to_ctype_valid j⟩

/-! ### The memory view: clearing twice, assigning to oneself -/

namespace mem

theorem write_self (s : state) (i : Nat) : state.write ⟨s.heap, s.objects⟩ i (s.objects i) = s := by
  obtain ⟨h, o⟩ := s
  simp only [state.write, state.mk.injEq, true_and]
  funext j
  by_cases hj : j = i
  · simp [hj]
  · simp [hj]

theorem clear_of_null (fuel : Nat) (h : heap) (v : value) (hv : v.storage_type = type.null) :
    clear (fuel + 1) h v = some (h, ⟨v.storage, type.null⟩) := by
  simp [clear, hv]

theorem copy_of_null (fuel : Nat) (h : heap) (this v : value)
    (hv : v.storage_type = type.null) :
    copy (fuel + 1) h this v = some (h, ⟨this.storage, type.null⟩) := by
  simp [copy, hv]

theorem only_null_of_type (h : heap) (x : value) (hx : x.storage_type = type.null) :
    ∀ t, holds h x t ↔ t = json.value.null := by
  intro t
  have hn : holds h x .null := holds_of_layout h x .null [] ((layout_null h x []).2 ⟨hx, rfl⟩)
  constructor
  · intro ht
    exact holds_unique h x t .null ht hn
  · intro ht
    rw [ht]
    exact hn

/-- C14: for every object holding a content of any kind (and owning its
allocations), `clear()` succeeds (given enough fuel), releases the
allocations of the content and leaves the object with the Null discriminant;
a second `clear()` then succeeds and leaves the state as it is: it releases
nothing. -/
theorem clear_is_idempotent (s : state) (b : Nat) (tb : json.value) (fb : List Nat)
    (hb : layout s.heap (s.objects b) tb = some fb) (hnd : fb.Nodup) :
    ∃ n s1,
      (∀ fuel, n ≤ fuel → clear_object fuel s b = some s1) ∧
      (s1.objects b).storage_type = type.null ∧
      (∀ p ∈ fb, s1.heap.read p = none) ∧
      (∀ p, p ∉ fb → s1.heap.read p = s.heap.read p) ∧
      (∀ fuel, 1 ≤ fuel → clear_object fuel s1 b = some s1) ∧
      (∀ fuel, max n 1 ≤ fuel →
        (clear_object fuel s b).bind (fun s2 => clear_object fuel s2 b) =
          clear_object fuel s b) := by
  obtain ⟨n, s1, hc, hobj, _, _, hfr, hrel⟩ := clear_object_post s b tb fb hb hnd
  have hty : (s1.objects b).storage_type = type.null := by rw [hobj]
  have hst : (⟨(s1.objects b).storage, type.null⟩ : value) = s1.objects b := by rw [hobj]
  have hsecond : ∀ fuel, 1 ≤ fuel → clear_object fuel s1 b = some s1 := by
    intro fuel hfuel
    cases fuel with
    | zero => omega
    | succ k =>
      simp only [clear_object, clear_of_null k s1.heap (s1.objects b) hty, hst]
      rw [write_self]
  refine ⟨n, s1, hc, hty, hrel, hfr, hsecond, fun fuel hfuel => ?_⟩
  rw [hc fuel (le_trans (le_max_left _ _) hfuel)]
  exact hsecond fuel (le_trans (le_max_right _ _) hfuel)

theorem clear_is_idempotent_witness :
    layout sample.heap (sample.objects 0) (.array [.boolean true, .string "x"]) =
        some [1, 0] ∧
      [1, 0].Nodup ∧
      ∃ n s1,
        (∀ fuel, n ≤ fuel → clear_object fuel sample 0 = some s1) ∧
        (s1.objects 0).storage_type = type.null ∧
        (∀ p ∈ [1, 0], s1.heap.read p = none) ∧
        (∀ p, p ∉ [1, 0] → s1.heap.read p = sample.heap.read p) ∧
        (∀ fuel, 1 ≤ fuel → clear_object fuel s1 0 = some s1) ∧
        (∀ fuel, max n 1 ≤ fuel →
          (clear_object fuel sample 0).bind (fun s2 => clear_object fuel s2 0) =
            clear_object fuel sample 0) :=
  ⟨rfl, by decide,
    clear_is_idempotent sample 0 (.array [.boolean true, .string "x"]) [1, 0] rfl (by decide)⟩

/-- C19: for every object `v` holding a content of any kind (and owning its
allocations), the copy assignment `v = v` and the move assignment
`v = std::move(v)` both succeed (given enough fuel): `clear()` runs first,
what follows reads the discriminant it has reset and no released allocation,
and `v` is left with the Null discriminant, holding the Null content only,
the allocations of its former content being released; a String, Array or
Object value loses its content. -/
theorem self_assignment_gives_null (s : state) (v : Nat) (t : json.value) (f : List Nat)
    (hv : layout s.heap (s.objects v) t = some f) (hnd : f.Nodup) :
    ∃ n s1 s2,
      (∀ fuel, n ≤ fuel → copy_assign fuel s v v = some s1) ∧
      (∀ fuel, n ≤ fuel → move_assign fuel s v v = some s2) ∧
      ((s1.objects v).storage_type = type.null ∧
        (∀ t1, holds s1.heap (s1.objects v) t1 ↔ t1 = json.value.null) ∧
        (∀ p ∈ f, s1.heap.read p = none)) ∧
      ((s2.objects v).storage_type = type.null ∧
        (∀ t1, holds s2.heap (s2.objects v) t1 ↔ t1 = json.value.null) ∧
        (∀ p ∈ f, s2.heap.read p = none)) ∧
      (t.storage_type ≠ type.null → ¬ holds s1.heap (s1.objects v) t ∧
        ¬ holds s2.heap (s2.objects v) t) := by
  obtain ⟨n, s0, hc, hobj, _, _, _, hrel⟩ := clear_object_post s v t f hv hnd
  have hty : (s0.objects v).storage_type = type.null := by rw [hobj]
  have hst : (⟨(s0.objects v).storage, type.null⟩ : value) = s0.objects v := by rw [hobj]
  have hcopy : ∀ fuel, max n 1 ≤ fuel → copy_assign fuel s v v = some s0 := by
    intro fuel hfuel
    have h1 : 1 ≤ fuel := le_trans (le_max_right _ _) hfuel
    cases fuel with
    | zero => omega
    | succ k =>
      simp only [copy_assign, hc (k + 1) (le_trans (le_max_left _ _) hfuel), copy_construct,
        copy_of_null k s0.heap (s0.objects v) (s0.objects v) hty, hst]
      rw [write_self]
  have hmove : ∀ fuel, max n 1 ≤ fuel →
      move_assign fuel s v v =
        some ((s0.set_storage_type v type.null).set_storage_type v type.null) := by
    intro fuel hfuel
    simp only [move_assign, hc fuel (le_trans (le_max_left _ _) hfuel), move_members, hty]
  have hty2 : (((s0.set_storage_type v type.null).set_storage_type v type.null).objects
      v).storage_type = type.null := by
    simp [state.set_storage_type, state.write]
  refine ⟨max n 1, s0, _, hcopy, hmove, ⟨hty, only_null_of_type _ _ hty, hrel⟩,
    ⟨hty2, only_null_of_type _ _ hty2, hrel⟩, fun hne => ⟨fun hh => ?_, fun hh => ?_⟩⟩
  · have := (only_null_of_type _ _ hty t).1 hh
    rw [this] at hne
    exact hne rfl
  · have := (only_null_of_type _ _ hty2 t).1 hh
    rw [this] at hne
    exact hne rfl

theorem self_assignment_gives_null_witness :
    layout sample.heap (sample.objects 0) (.array [.boolean true, .string "x"]) =
        some [1, 0] ∧
      [1, 0].Nodup ∧
      ∃ n s1 s2,
        (∀ fuel, n ≤ fuel → copy_assign fuel sample 0 0 = some s1) ∧
        (∀ fuel, n ≤ fuel → move_assign fuel sample 0 0 = some s2) ∧
        ((s1.objects 0).storage_type = type.null ∧
          (∀ t1, holds s1.heap (s1.objects 0) t1 ↔ t1 = json.value.null) ∧
          (∀ p ∈ [1, 0], s1.heap.read p = none)) ∧
        ((s2.objects 0).storage_type = type.null ∧
          (∀ t1, holds s2.heap (s2.objects 0) t1 ↔ t1 = json.value.null) ∧
          (∀ p ∈ [1, 0], s2.heap.read p = none)) ∧
        ((json.value.array [.boolean true, .string "x"]).storage_type ≠ type.null →
          ¬ holds s1.heap (s1.objects 0) (.array [.boolean true, .string "x"]) ∧
          ¬ holds s2.heap (s2.objects 0) (.array [.boolean true, .string "x"])) :=
  ⟨rfl, by decide,
    self_assignment_gives_null sample 0 (.array [.boolean true, .string "x"]) [1, 0] rfl
      (by decide)⟩

end mem

/-! ### Integers held by a Number -/

/-- C17: for every non-negative integer `n` that is exactly representable as
a 64-bit float (in particular every `n <= 2 ^ 53`, and
`240558470661799936`) and that fits the integer type `T`, signed or unsigned
of any width, the Number value made from `n` satisfies `is<T>()`, its
`as<T>()` is `n`, and its `as<T>(d)` is `n` for every default `d`. -/
theorem integer_round_trip (P : platform) (n w : Nat) (hrep : double.representable n) :
    (numeric.fits (.uint w) n = true →
      is (.number (.uint w)) (value.of_double (double.of_int n)) = true ∧
      as P (.number (.uint w)) (value.of_double (double.of_int n)) = Except.ok (n : Int) ∧
      ∀ d : Int, as_default P (.number (.uint w)) (value.of_double (double.of_int n)) d =
        Except.ok (n : Int)) ∧
    (numeric.fits (.sint w) n = true →
      is (.number (.sint w)) (value.of_double (double.of_int n)) = true ∧
      as P (.number (.sint w)) (value.of_double (double.of_int n)) = Except.ok (n : Int) ∧
      ∀ d : Int, as_default P (.number (.sint w)) (value.of_double (double.of_int n)) d =
        Except.ok (n : Int)) ∧
    (∀ k : Nat, k ≤ 2 ^ 53 → double.representable k) ∧
    double.representable 240558470661799936 := by
  have ht := of_int_trunc n hrep
  have hu : numeric.fits (.uint w) n = true →
      as P (.number (.uint w)) (value.of_double (double.of_int n)) = Except.ok (n : Int) := by
    intro hfit
    simp [as, as_impl, is, is_impl, value.of_double, value.storage_type, value.storage_number,
      numeric.of_double, ht, hfit]
  have hs : numeric.fits (.sint w) n = true →
      as P (.number (.sint w)) (value.of_double (double.of_int n)) = Except.ok (n : Int) := by
    intro hfit
    simp [as, as_impl, is, is_impl, value.of_double, value.storage_type, value.storage_number,
      numeric.of_double, ht, hfit]
  refine ⟨fun hfit => ⟨rfl, hu hfit, fun d => ?_⟩, fun hfit => ⟨rfl, hs hfit, fun d => ?_⟩,
    representable_small, ⟨1835315480513, 17, by decide, by decide, by decide⟩⟩
  · have hi : is (.number (.uint w)) (value.of_double (double.of_int n)) = true := rfl
    simp only [as_default, hi, if_true]
    exact hu hfit
  · have hi : is (.number (.sint w)) (value.of_double (double.of_int n)) = true := rfl
    simp only [as_default, hi, if_true]
    exact hs hfit

theorem integer_round_trip_witness :
    double.representable 240558470661799936 ∧
      numeric.fits (.uint 64) ((240558470661799936 : Nat) : Int) = true ∧
      as ⟨fun _ _ => 0⟩ (.number (.uint 64))
          (value.of_double (double.of_int ((240558470661799936 : Nat) : Int))) =
        Except.ok (((240558470661799936 : Nat) : Int)) ∧
      as_default ⟨fun _ _ => 0⟩ (.number (.uint 64))
          (value.of_double (double.of_int ((240558470661799936 : Nat) : Int))) (10 : Int) =
        Except.ok (((240558470661799936 : Nat) : Int)) :=
  ⟨⟨1835315480513, 17, by decide, by decide, by decide⟩, by decide,
    ((integer_round_trip _ 240558470661799936 64
      ⟨1835315480513, 17, by decide, by decide, by decide⟩).1 (by decide)).2.1,
    ((integer_round_trip _ 240558470661799936 64
      ⟨1835315480513, 17, by decide, by decide, by decide⟩).1 (by decide)).2.2 10⟩

end json
